import Mathlib

/-!
# Verification of the smokey cellular-automaton core (sim.hpp)

Shallow embedding of the smoke-propagation engine: the `Cell`/`Board` data
model, engine construction with emitter placement and static weight
precomputation, the run/stop/step state machine, and the per-tick diffusion
update `cycle`.  C++ `float` quantities are modelled as exact rationals,
`uint` coordinates as `Nat` (with the wrap-around of `row - 1` at 0 modelled
as an absent neighbor, which coincides with the source behavior for any grid
of height below 2^32), and the function-local `static` variables of
`Sim::cycle` as an explicit `Option CycleStatics` program state threaded
through each call (`none` before the very first call of the program).
-/

namespace Smokey

/-- Cell classification, mirroring `Cell::Type`. -/
inductive CellType
  | Wall
  | Floor
  | Emitter
  | Escape
deriving DecidableEq, Repr, Inhabited

/-- One grid location, mirroring `Sim::Cell`.  `density`, `omega_in`,
`omega_out`, `intake`, `outtake` are C++ floats, modelled as rationals. -/
structure Cell where
  type : CellType
  cost : Int
  row : Nat
  col : Nat
  omega_in : ℚ
  omega_out : ℚ
  density : ℚ
  outtake : ℚ
  intake : ℚ
deriving DecidableEq, Repr, Inhabited

/-- `wall_color` (Seal Gray). -/
def wall_color : Nat := 0x4D5D53FF

/-- `floor_color` (White). -/
def floor_color : Nat := 0xFFFFFFFF

/-- `escape_color` (Blue). -/
def escape_color : Nat := 0x0000FFFF

/-- `emitter_color` (Red). -/
def emitter_color : Nat := 0xFF0000FF

/-- The four cardinal directions, mirroring `enum Dir`. -/
inductive Dir
  | North
  | South
  | West
  | East
deriving DecidableEq, Repr, Inhabited

/-- `constexpr Dir directions[4]`, in source order. -/
def directions : List Dir := [Dir.North, Dir.South, Dir.West, Dir.East]

/-- The grid, mirroring `Sim::Board`: row-major cells and a row-major pixmap
of packed RGBA colors. -/
structure Board where
  width : Nat
  height : Nat
  cells : List Cell
  pixmap : List Nat
deriving DecidableEq, Repr, Inhabited

/-- `Board::cellAt(row, col)`: range-checked lookup, `none` outside
`[0, height) x [0, width)` (the C++ `uint` arguments are never negative). -/
def Board.cellAt? (b : Board) (row col : Nat) : Option Cell :=
  if row < b.height ∧ col < b.width then b.cells.get? (row * b.width + col) else none

/-- The coordinate one step in direction `dir` from `(row, col)`.
In the source, `row - 1` / `col - 1` underflow on `uint` at 0 and produce an
index rejected by the `cellAt` range check for any grid of height/width below
2^32; this is modelled as `none`. -/
def dirPos? : Dir → Nat → Nat → Option (Nat × Nat)
  | Dir.North, row, col => if row = 0 then none else some (row - 1, col)
  | Dir.South, row, col => some (row + 1, col)
  | Dir.West, row, col => if col = 0 then none else some (row, col - 1)
  | Dir.East, row, col => some (row, col + 1)

/-- `Board::cellAt(dir, row, col)`: neighbor lookup via `cellAt`. -/
def Board.cellAtD? (b : Board) (dir : Dir) (row col : Nat) : Option Cell :=
  match dirPos? dir row col with
  | none => none
  | some rc => b.cellAt? rc.1 rc.2

/-- Overwrite the cell at `(row, col)`; call sites always pass in-range
coordinates (matching the C++ pointer write). -/
def Board.setCell (b : Board) (row col : Nat) (cell : Cell) : Board :=
  { b with cells := b.cells.set (row * b.width + col) cell }

/-- Truncating C++ `float`-to-`uchar` conversion for the in-range values the
source produces (out-of-range conversions are undefined behavior in the
source; the `% 256` makes the model total). -/
def toUchar (q : ℚ) : Nat := (q.num / (q.den : Int)).toNat % 256

/-- `Board::writePixel(row, col, r, g, b)`: pack channels with alpha 0xFF. -/
def Board.writePixelRGB (b : Board) (row col : Nat) (r g bl : Nat) : Board :=
  { b with pixmap := (b.pixmap.set (row * b.width + col)
      (r * 2 ^ 24 + g * 2 ^ 16 + bl * 2 ^ 8 + 0xFF)) }

/-- `Board::writePixel(row, col, rgba)`: packed-color overload. -/
def Board.writePixel (b : Board) (row col : Nat) (rgba : Nat) : Board :=
  { b with pixmap := b.pixmap.set (row * b.width + col) rgba }

/-- Classification of one layout code, mirroring the `Board` constructor body:
`cost = layout[idx] - 0x30`, clamped to `[-1, 10]`, with `<= -1` a Wall,
`>= 10` an Escape, and anything else a Floor.  The fields not written by the
constructor (`omega_*`, `intake`, `outtake`) are uninitialized `malloc`
memory in the source; they are written before any read, so 0 is a faithful
placeholder. -/
def classifyCell (row col : Nat) (code : Int) : Cell :=
  let cost := code - 0x30
  if cost ≤ -1 then
    { type := CellType.Wall, cost := -1, row := row, col := col,
      omega_in := 0, omega_out := 0, density := 0, outtake := 0, intake := 0 }
  else if 10 ≤ cost then
    { type := CellType.Escape, cost := 10, row := row, col := col,
      omega_in := 0, omega_out := 0, density := 0, outtake := 0, intake := 0 }
  else
    { type := CellType.Floor, cost := cost, row := row, col := col,
      omega_in := 0, omega_out := 0, density := 0, outtake := 0, intake := 0 }

/-- The constructor's initial pixmap color for one layout code. -/
def classifyColor (code : Int) : Nat :=
  let cost := code - 0x30
  if cost ≤ -1 then wall_color
  else if 10 ≤ cost then escape_color
  else floor_color

/-- Row-major scan order over an `height x width` grid, as produced by the
nested `for (row) for (col)` loops (index `idx = row * width + col`). -/
def scanPositions (height width : Nat) : List (Nat × Nat) :=
  (List.range (height * width)).map fun idx => (idx / width, idx % width)

/-- `Board::Board(width, height, layout)`: classify every cell and set the
initial pixmap.  The layout buffer is read at `idx = row * width + col`; the
caller contract guarantees `width * height` valid codes (`getD _ 0` pads,
matching no in-contract execution path). -/
def mkBoard (width height : Nat) (layout : List Int) : Board :=
  { width := width, height := height,
    cells := (List.range (height * width)).map fun idx =>
      classifyCell (idx / width) (idx % width) (layout.getD idx 0),
    pixmap := (List.range (height * width)).map fun idx =>
      classifyColor (layout.getD idx 0) }

/-- One step of the neighbor-kind counting loop in the `Sim` constructor:
Wall contributes to neither count, Floor to both, Emitter to `ins` only,
Escape to `outs` only. -/
def countStep (b : Board) (row col : Nat) (io : Nat × Nat) (dir : Dir) : Nat × Nat :=
  match b.cellAtD? dir row col with
  | none => io
  | some adj =>
    match adj.type with
    | CellType.Wall => io
    | CellType.Floor => (io.1 + 1, io.2 + 1)
    | CellType.Emitter => (io.1 + 1, io.2)
    | CellType.Escape => (io.1, io.2 + 1)

/-- `(ins, outs)` for the cell at `(row, col)`: the constructor's loop over
the four directions. -/
def neighborCounts (b : Board) (row col : Nat) : Nat × Nat :=
  directions.foldl (countStep b row col) (0, 0)

/-- The static propagation weights derived from `(ins, outs)`:
`omega_in = 1/ins` (0 if `ins = 0`), `omega_out = 1/outs` (0 if `outs = 0`). -/
def omegaOf (io : Nat × Nat) : ℚ × ℚ :=
  (if io.1 = 0 then 0 else 1 / (io.1 : ℚ), if io.2 = 0 then 0 else 1 / (io.2 : ℚ))

/-- One iteration of the weight-precomputation loop: count the neighbor kinds
of the cell at `rc` and store its `omega_in`/`omega_out`. -/
def weighCell (acc : Board) (rc : Nat × Nat) : Board :=
  match acc.cellAt? rc.1 rc.2 with
  | none => acc
  | some cur =>
    acc.setCell rc.1 rc.2
      { cur with
        omega_in := (omegaOf (neighborCounts acc rc.1 rc.2)).1,
        omega_out := (omegaOf (neighborCounts acc rc.1 rc.2)).2 }

/-- The weight-precomputation pass of the `Sim` constructor: for every cell in
row-major order, count neighbor kinds and store `omega_in`/`omega_out`.
The loop reads only neighbor `type` fields, which it never writes, so the
in-place mutation is order-independent. -/
def computeWeights (b : Board) : Board :=
  (scanPositions b.height b.width).foldl weighCell b

/-- Construction failures of the engine (`std::runtime_error` in the source,
named per the spec's error kinds). -/
inductive SimError
  | outOfBounds
  | invalidEmitterPlacement
deriving DecidableEq, Repr

/-- `Sim::State`. -/
inductive SimState
  | Stop
  | Run
  | Step
deriving DecidableEq, Repr, Inhabited

/-- The engine, mirroring `class Sim`: run-state, tick counter, configuration
fields (with their C++ default member initializers), and the board. -/
structure Sim where
  state : SimState := SimState.Stop
  ticks : Nat := 0
  tick_rate : Int := 1
  emitter_rate : ℚ := 1
  escape_rate : ℚ := 1
  use_precalc_weights : Bool := false
  board : Board
deriving DecidableEq, Repr

/-- `Sim::Sim(board_width, board_height, layout, emitter_row, emitter_col)`:
build the board, place the emitter (out-of-bounds coordinate and non-Floor
cost `[0,9]` are construction failures), paint the emitter pixel, then
precompute the static weights. -/
def mkSim (board_width board_height : Nat) (layout : List Int)
    (emitter_row emitter_col : Nat) : Except SimError Sim :=
  let b := mkBoard board_width board_height layout
  match b.cellAt? emitter_row emitter_col with
  | none => Except.error SimError.outOfBounds
  | some emitter =>
    if emitter.cost < 0 ∨ 9 < emitter.cost then
      Except.error SimError.invalidEmitterPlacement
    else
      Except.ok { board := (computeWeights
          (((b.setCell emitter_row emitter_col
              { emitter with type := CellType.Emitter, density := 1 })).writePixel
            emitter_row emitter_col emitter_color)) }

/-- `Sim::start()`. -/
def startSim (s : Sim) : Sim := { s with state := SimState.Run }

/-- `Sim::stop()`. -/
def stopSim (s : Sim) : Sim := { s with state := SimState.Stop }

/-- `Sim::isRunning()`. -/
def isRunning (s : Sim) : Bool := s.state = SimState.Run

/-- `Sim::getTicks()`. -/
def getTicks (s : Sim) : Nat := s.ticks

/-- The function-local `static` variables of `Sim::cycle`: the frame-skip
counter and the latched (active) copies of the three configuration values. -/
structure CycleStatics where
  fsc : Int
  emitter_rate : ℚ
  escape_rate : ℚ
  use_precalc_weights : Bool
deriving DecidableEq, Repr

/-- The values the statics are initialized with on the very first `cycle()`
call of the program: the calling engine's current fields. -/
def initStatics (s : Sim) : CycleStatics :=
  { fsc := s.tick_rate, emitter_rate := s.emitter_rate,
    escape_rate := s.escape_rate, use_precalc_weights := s.use_precalc_weights }

/-- Accumulator for the neighbor loop of a Floor cell update: the board with
neighbor scratch writes applied so far, and the running `cur->intake` /
`cur->outtake` sums. -/
structure DirAcc where
  b : Board
  inAcc : ℚ
  outAcc : ℚ

/-- One iteration of the `for (auto dir : directions)` loop when the cell
under update is a Floor: fetch the neighbor (skip absent ones), compute its
active weights, overwrite its `intake`/`outtake` scratch by its kind, and
accumulate `cur->intake += adj->outtake; cur->outtake += adj->intake`.
`ciw`/`cow`/`dcur` are `cur`'s active weights and (pre-update) density.
The source accumulates into `cur`'s memory during the loop; nothing reads
those partial sums, so carrying them in the accumulator is equivalent. -/
def visitDir (upw : Bool) (er es ciw cow dcur : ℚ) (row col : Nat)
    (acc : DirAcc) (dir : Dir) : DirAcc :=
  match dirPos? dir row col with
  | none => acc
  | some rc =>
    match acc.b.cellAt? rc.1 rc.2 with
    | none => acc
    | some adj =>
      let aow := if upw then adj.omega_out else 1 / 4
      let aiw := if upw then adj.omega_in else 1 / 4
      let nio : ℚ × ℚ :=
        match adj.type with
        | CellType.Wall => (0, 0)
        | CellType.Floor =>
            (min (cow * dcur) (aiw * (1 - adj.density)),
             min (aow * adj.density) (ciw * (1 - dcur)))
        | CellType.Emitter =>
            (0, er * min (aow * adj.density) (ciw * (1 - dcur)))
        | CellType.Escape => (es * cow * dcur, 0)
      { b := acc.b.setCell rc.1 rc.2 { adj with intake := nio.1, outtake := nio.2 },
        inAcc := acc.inAcc + nio.2,
        outAcc := acc.outAcc + nio.1 }

/-- The per-cell body of the full board update: reset `cur`'s scratch,
dispatch on its kind (Wall: nothing further; Emitter/Escape: repaint only;
Floor: neighbor exchange, density update, grayscale repaint).  The active
rates `er`/`es` and the weight mode `upw` are the latched static values. -/
def processCell (upw : Bool) (er es : ℚ) (b : Board) (row col : Nat) : Board :=
  match b.cellAt? row col with
  | none => b
  | some cur =>
    let cow := if upw then cur.omega_out else 1 / 4
    let ciw := if upw then cur.omega_in else 1 / 4
    match cur.type with
    | CellType.Wall => b.setCell row col { cur with intake := 0, outtake := 0 }
    | CellType.Floor =>
        let res := directions.foldl (visitDir upw er es ciw cow cur.density row col)
          { b := b, inAcc := 0, outAcc := 0 }
        let newd := cur.density + res.inAcc - res.outAcc
        let l := toUchar (255 - 255 * newd)
        (res.b.setCell row col
          { cur with intake := res.inAcc, outtake := res.outAcc, density := newd
          }).writePixelRGB row col l l l
    | CellType.Emitter =>
        let l := toUchar (255 * er)
        (b.setCell row col { cur with intake := 0, outtake := 0 }).writePixelRGB
          row col l (255 - l) (255 - l)
    | CellType.Escape =>
        let l := toUchar (255 * es)
        (b.setCell row col { cur with intake := 0, outtake := 0 }).writePixelRGB
          row col (255 - l) (255 - l) l

/-- The full board update of `Sim::cycle`: the row-major scan applying
`processCell` at every position of the (pre-scan) grid. -/
def boardUpdate (upw : Bool) (er es : ℚ) (b : Board) : Board :=
  (scanPositions b.height b.width).foldl
    (fun acc rc => processCell upw er es acc rc.1 rc.2) b

/-- The tail of an executed board update: bump the tick counter, reset the
frame-skip counter to the current `tick_rate` only when Running, and latch
the current configuration into the statics. -/
def finishCycle (st : CycleStatics) (s : Sim) : Option CycleStatics × Sim :=
  let b := boardUpdate st.use_precalc_weights st.emitter_rate st.escape_rate s.board
  (some { fsc := if s.state = SimState.Run then s.tick_rate else st.fsc,
          emitter_rate := s.emitter_rate, escape_rate := s.escape_rate,
          use_precalc_weights := s.use_precalc_weights },
   { s with board := b, ticks := s.ticks + 1 })

/-- `Sim::cycle()`: initialize the statics on the program's first call, early
return when Stopped or when the decremented frame-skip counter is nonzero
while Running, otherwise run the full board update with the latched values. -/
def cycle (st? : Option CycleStatics) (s : Sim) : Option CycleStatics × Sim :=
  let st := st?.getD (initStatics s)
  match s.state with
  | SimState.Stop => (some st, s)
  | SimState.Run =>
      if st.fsc - 1 ≠ 0 then (some { st with fsc := st.fsc - 1 }, s)
      else finishCycle { st with fsc := st.fsc - 1 } s
  | SimState.Step => finishCycle st s

/-- `Sim::step()`: enter `Step`, run one `cycle`, return to `Stop`. -/
def step (st? : Option CycleStatics) (s : Sim) : Option CycleStatics × Sim :=
  let p := cycle st? { s with state := SimState.Step }
  (p.1, { p.2 with state := SimState.Stop })

/-- `k` consecutive host-frame `cycle()` calls, threading the statics. -/
def cycles (k : Nat) (p : Option CycleStatics × Sim) : Option CycleStatics × Sim :=
  (fun q => cycle q.1 q.2)^[k] p

/-- One host interaction with the engine: a `cycle()` call, a `step()` call,
`start()`, `stop()`, or a write to the public configuration fields (which the
UI mutates directly). -/
inductive SimOp
  | cyc
  | stp
  | start
  | stop
  | config (tick_rate : Int) (emitter_rate escape_rate : ℚ) (use_precalc_weights : Bool)

/-- Apply one host interaction to the program state (statics plus engine). -/
def applyOp (p : Option CycleStatics × Sim) : SimOp → Option CycleStatics × Sim
  | SimOp.cyc => cycle p.1 p.2
  | SimOp.stp => step p.1 p.2
  | SimOp.start => (p.1, startSim p.2)
  | SimOp.stop => (p.1, stopSim p.2)
  | SimOp.config tr er es upw =>
      (p.1, { p.2 with tick_rate := tr, emitter_rate := er, escape_rate := es,
                       use_precalc_weights := upw })

/-- Apply a sequence of host interactions, oldest first. -/
def applyOps (ops : List SimOp) (p : Option CycleStatics × Sim) :
    Option CycleStatics × Sim :=
  ops.foldl applyOp p

/-- Overwrite the three mutable rate/weight-mode configuration fields. -/
def setRates (s : Sim) (er es : ℚ) (upw : Bool) : Sim :=
  { s with emitter_rate := er, escape_rate := es, use_precalc_weights := upw }

/-- An empty board, used only as the fallback of `simOf`. -/
def emptyBoard : Board := { width := 0, height := 0, cells := [], pixmap := [] }

/-- A placeholder engine on the empty board, used only as the fallback of
`simOf`. -/
def emptySim : Sim := { board := emptyBoard }

/-- Extract the engine from a successful construction. -/
def simOf (e : Except SimError Sim) : Sim :=
  match e with
  | Except.ok s => s
  | Except.error _ => emptySim

/-- The cell at `(row, col)`, defaulting outside the grid; used to state
concrete per-cell facts. -/
def cellAtD (b : Board) (row col : Nat) : Cell := (b.cellAt? row col).getD default

/-- The spec's 1x3 acceptance scenario: layout codes `48 48 58` (characters
`0`, `0`, `:`), producing Floor(cost 0), Floor(cost 0), Escape; emitter at
row 0, column 0. -/
def scenarioSim : Sim := simOf (mkSim 3 1 [48, 48, 58] 0 0)

/-- The acceptance scenario engine with `use_precalculated_weights = true`
(the construction defaults already give `emitter_rate = escape_rate = 1`). -/
def accSim : Sim := { scenarioSim with use_precalc_weights := true }

/-- The full board update of the acceptance scenario: precalculated weights,
both rates 1. -/
def tickB (b : Board) : Board := boardUpdate true 1 1 b

/-- Ticking the acceptance scenario `k` times through `step()`, from program
start (statics uninitialized). -/
def accRun (k : Nat) : Option CycleStatics × Sim :=
  (fun p => step p.1 p.2)^[k] (none, accSim)

/-- The middle cell's density after `k` ticks of the acceptance scenario. -/
def accDens (k : Nat) : ℚ := (cellAtD (accRun k).2.board 0 1).density

/-- A second engine on the acceptance layout whose own `emitter_rate` is 0,
constructed after the first engine has run: used to exhibit the
program-lifetime statics leaking across engine instances. -/
def simB : Sim := { scenarioSim with emitter_rate := 0, use_precalc_weights := true }

/-- The acceptance-scenario engine set Running with a frame-skip rate of 2,
used to exercise the tick throttle on concrete input. -/
def c6sim : Sim := { accSim with state := SimState.Run, tick_rate := 2 }

/-- Every cell's `omega_in`/`omega_out` equal the constructor's formula for
the neighbor-kind counts of its position. -/
def WeightsOk (b : Board) : Prop :=
  ∀ row col cell, b.cellAt? row col = some cell →
    cell.omega_in = (omegaOf (neighborCounts b row col)).1 ∧
    cell.omega_out = (omegaOf (neighborCounts b row col)).2

/-- Every cell's density lies in `[0, 1]`. -/
def DensIn01 (b : Board) : Prop :=
  ∀ row col cell, b.cellAt? row col = some cell →
    0 ≤ cell.density ∧ cell.density ≤ 1

/-- The density shape of any reachable engine state: Floor densities in
`[0, 1]`, the Emitter at 1, Wall and Escape at 0. -/
def DensState (b : Board) : Prop :=
  ∀ row col cell, b.cellAt? row col = some cell →
    (cell.type = CellType.Floor → 0 ≤ cell.density ∧ cell.density ≤ 1) ∧
    (cell.type = CellType.Emitter → cell.density = 1) ∧
    (cell.type = CellType.Wall → cell.density = 0) ∧
    (cell.type = CellType.Escape → cell.density = 0)

/-- Every Floor cell's density lies in `[0, 1]`. -/
def FloorDens01 (b : Board) : Prop :=
  ∀ row col cell, b.cellAt? row col = some cell → cell.type = CellType.Floor →
    0 ≤ cell.density ∧ cell.density ≤ 1

/-- Every Wall cell's `intake` and `outtake` scratch fields are 0. -/
def WallZero (b : Board) : Prop :=
  ∀ row col cell, b.cellAt? row col = some cell → cell.type = CellType.Wall →
    cell.intake = 0 ∧ cell.outtake = 0

/-- The fields of a cell never touched by the update rule: everything except
`density`, `intake` and `outtake`. -/
def Cell.statics (c : Cell) : CellType × Int × Nat × Nat × ℚ × ℚ :=
  (c.type, c.cost, c.row, c.col, c.omega_in, c.omega_out)

/-- The fields of a cell never touched by the weight precomputation:
everything except `omega_in` and `omega_out`. -/
def Cell.nonOmega (c : Cell) : CellType × Int × Nat × Nat × ℚ × ℚ × ℚ :=
  (c.type, c.cost, c.row, c.col, c.density, c.outtake, c.intake)

/-- The fields of a cell never touched by a Floor cell's neighbor loop:
everything except `intake` and `outtake`. -/
def Cell.core (c : Cell) : CellType × Int × Nat × Nat × ℚ × ℚ × ℚ :=
  (c.type, c.cost, c.row, c.col, c.omega_in, c.omega_out, c.density)

/-- Two boards of equal shape and pixmap whose cells agree outside the weight
fields (the weight pass only writes `omega_in`/`omega_out`). -/
def NonOmEq (b bp : Board) : Prop :=
  b.width = bp.width ∧ b.height = bp.height ∧ b.cells.length = bp.cells.length ∧
  b.pixmap = bp.pixmap ∧
  ∀ row col, (b.cellAt? row col).map Cell.nonOmega = (bp.cellAt? row col).map Cell.nonOmega

/-- The cell of `bp` at one position (if any) carries the weights the
constructor computes from the neighbor counts taken on `b`. -/
def OmegaAt (b bp : Board) (row col : Nat) : Prop :=
  ∀ cell, bp.cellAt? row col = some cell →
    cell.omega_in = (omegaOf (neighborCounts b row col)).1 ∧
    cell.omega_out = (omegaOf (neighborCounts b row col)).2

/-- The Wall cell at one position (if any) has zero scratch. -/
def WallZeroAt (b : Board) (row col : Nat) : Prop :=
  ∀ cell, b.cellAt? row col = some cell → cell.type = CellType.Wall →
    cell.intake = 0 ∧ cell.outtake = 0

/-- The board has exactly `height * width` cells, so the row-major scan
resolves every position (true of every constructed board). -/
def BoardWf (b : Board) : Prop := b.cells.length = b.height * b.width

/-- Two boards of equal shape whose cells agree outside the scratch fields
(the neighbor loop only rewrites neighbor scratch). -/
def CoreEq (b bp : Board) : Prop :=
  b.width = bp.width ∧ b.height = bp.height ∧ b.cells.length = bp.cells.length ∧
  ∀ row col, (b.cellAt? row col).map Cell.core = (bp.cellAt? row col).map Cell.core

/-- Two boards of equal shape whose cells agree on the static fields
(kind, cost, position, weights); densities and scratch may differ. -/
def StaticEq (b bp : Board) : Prop :=
  b.width = bp.width ∧ b.height = bp.height ∧ b.cells.length = bp.cells.length ∧
  ∀ row col, (b.cellAt? row col).map Cell.statics = (bp.cellAt? row col).map Cell.statics

/-- A full board update relates a board to its successor: static fields are
untouched everywhere, and the density of every non-Floor cell is untouched. -/
def UpdRel (b bp : Board) : Prop :=
  StaticEq b bp ∧
  ∀ row col cell cellp, b.cellAt? row col = some cell →
    bp.cellAt? row col = some cellp → cell.type ≠ CellType.Floor →
    cellp.density = cell.density

/-- Between a pre-scan board and a partially scanned board: every Wall cell's
scratch is either untouched or has been rewritten to 0 (all scratch writes to
a Wall cell write 0). -/
def WallW (b bp : Board) : Prop :=
  ∀ row col old new, b.cellAt? row col = some old → bp.cellAt? row col = some new →
    old.type = CellType.Wall →
    ((new.intake = old.intake ∧ new.outtake = old.outtake) ∨
     (new.intake = 0 ∧ new.outtake = 0))

/-- The sum over the four directions of a per-direction rational quantity. -/
def dirSum (f : Dir → ℚ) : ℚ := (directions.map f).sum

/-- The `(adj->intake, adj->outtake)` pair the neighbor loop writes for the
neighbor in direction `dir`, computed from the pre-loop board: `(0, 0)` for
an absent or Wall neighbor, the capped two-way exchange for a Floor neighbor,
the rate-scaled capped push for an Emitter, the rate-scaled uncapped drain
for an Escape. -/
def dirContrib (upw : Bool) (er es ciw cow dcur : ℚ) (b : Board) (row col : Nat)
    (dir : Dir) : ℚ × ℚ :=
  match b.cellAtD? dir row col with
  | none => (0, 0)
  | some adj =>
    let aow := if upw then adj.omega_out else 1 / 4
    let aiw := if upw then adj.omega_in else 1 / 4
    match adj.type with
    | CellType.Wall => (0, 0)
    | CellType.Floor =>
        (min (cow * dcur) (aiw * (1 - adj.density)),
         min (aow * adj.density) (ciw * (1 - dcur)))
    | CellType.Emitter => (0, er * min (aow * adj.density) (ciw * (1 - dcur)))
    | CellType.Escape => (es * cow * dcur, 0)

/-- 1 when the neighbor in direction `dir` exists and is an inflow source
(Floor or Emitter), else 0: the unit the constructor adds to `ins`. -/
def inInd (b : Board) (row col : Nat) (dir : Dir) : Nat :=
  match b.cellAtD? dir row col with
  | none => 0
  | some adj =>
    match adj.type with
    | CellType.Wall => 0
    | CellType.Floor => 1
    | CellType.Emitter => 1
    | CellType.Escape => 0

/-- 1 when the neighbor in direction `dir` exists and is an outflow sink
(Floor or Escape), else 0: the unit the constructor adds to `outs`. -/
def outInd (b : Board) (row col : Nat) (dir : Dir) : Nat :=
  match b.cellAtD? dir row col with
  | none => 0
  | some adj =>
    match adj.type with
    | CellType.Wall => 0
    | CellType.Floor => 1
    | CellType.Emitter => 0
    | CellType.Escape => 1

/-! ## Basic board lemmas -/

theorem row_major_lt {row col h w : Nat} (hr : row < h) (hc : col < w) :
    row * w + col < h * w := by
  calc row * w + col < row * w + w := by omega
  _ = (row + 1) * w := by ring
  _ ≤ h * w := Nat.mul_le_mul_right w hr

theorem row_major_inj {row col rowp colp w : Nat} (hc : col < w) (hcp : colp < w)
    (h : row * w + col = rowp * w + colp) : row = rowp ∧ col = colp := by
  rcases Nat.lt_trichotomy row rowp with hlt | heq | hgt
  · exfalso
    have h1 : row * w + col < (row + 1) * w := by
      have : (row + 1) * w = row * w + w := by ring
      omega
    have h2 : (row + 1) * w ≤ rowp * w := Nat.mul_le_mul_right w hlt
    omega
  · constructor
    · exact heq
    · subst heq; omega
  · exfalso
    have h1 : rowp * w + colp < (rowp + 1) * w := by
      have : (rowp + 1) * w = rowp * w + w := by ring
      omega
    have h2 : (rowp + 1) * w ≤ row * w := Nat.mul_le_mul_right w hgt
    omega

theorem cellAt?_eq_some_bounds {b : Board} {row col : Nat} {cell : Cell}
    (h : b.cellAt? row col = some cell) :
    row < b.height ∧ col < b.width ∧ row * b.width + col < b.cells.length := by
  unfold Board.cellAt? at h
  split at h
  · rename_i hb
    refine ⟨hb.1, hb.2, ?_⟩
    rcases List.get?_eq_some.mp h with ⟨hlen, _⟩
    exact hlen
  · exact absurd h (by simp)

theorem cellAt?_isSome_of_wf {b : Board} (hwf : BoardWf b) {row col : Nat}
    (hr : row < b.height) (hc : col < b.width) : ∃ cell, b.cellAt? row col = some cell := by
  unfold Board.cellAt?
  rw [if_pos ⟨hr, hc⟩]
  have hlt : row * b.width + col < b.cells.length := by
    rw [hwf]; exact row_major_lt hr hc
  rcases List.get?_eq_get hlt with h
  exact ⟨_, h⟩

theorem setCell_width (b : Board) (row col : Nat) (cell : Cell) :
    (b.setCell row col cell).width = b.width := rfl

theorem setCell_height (b : Board) (row col : Nat) (cell : Cell) :
    (b.setCell row col cell).height = b.height := rfl

theorem setCell_pixmap (b : Board) (row col : Nat) (cell : Cell) :
    (b.setCell row col cell).pixmap = b.pixmap := rfl

theorem setCell_length (b : Board) (row col : Nat) (cell : Cell) :
    (b.setCell row col cell).cells.length = b.cells.length := by
  simp [Board.setCell]

theorem cellAt?_setCell_self {b : Board} {row col : Nat} {old : Cell}
    (h : b.cellAt? row col = some old) (cell : Cell) :
    (b.setCell row col cell).cellAt? row col = some cell := by
  rcases cellAt?_eq_some_bounds h with ⟨hr, hc, hlen⟩
  unfold Board.cellAt? Board.setCell
  simp only []
  rw [if_pos ⟨hr, hc⟩]
  exact List.get?_set_eq_of_lt _ hlen

theorem cellAt?_setCell_other {b : Board} {row col : Nat} {old : Cell}
    (h : b.cellAt? row col = some old) {rowp colp : Nat} (cell : Cell)
    (hne : ¬(rowp = row ∧ colp = col)) :
    (b.setCell row col cell).cellAt? rowp colp = b.cellAt? rowp colp := by
  rcases cellAt?_eq_some_bounds h with ⟨hr, hc, hlen⟩
  unfold Board.cellAt? Board.setCell
  simp only []
  by_cases hb : rowp < b.height ∧ colp < b.width
  · rw [if_pos hb, if_pos hb]
    by_cases hidx : row * b.width + col = rowp * b.width + colp
    · rcases row_major_inj hc hb.2 hidx with ⟨he1, he2⟩
      exact absurd ⟨he1.symm, he2.symm⟩ hne
    · rw [List.get?_set_ne _ _ hidx]
  · rw [if_neg hb, if_neg hb]

theorem cellAt?_writePixelRGB (b : Board) (row col r g bl rowp colp : Nat) :
    (b.writePixelRGB row col r g bl).cellAt? rowp colp = b.cellAt? rowp colp := rfl

theorem writePixelRGB_width (b : Board) (row col r g bl : Nat) :
    (b.writePixelRGB row col r g bl).width = b.width := rfl

theorem writePixelRGB_height (b : Board) (row col r g bl : Nat) :
    (b.writePixelRGB row col r g bl).height = b.height := rfl

theorem writePixelRGB_length (b : Board) (row col r g bl : Nat) :
    (b.writePixelRGB row col r g bl).cells.length = b.cells.length := rfl

/-! ## The neighbor loop of a Floor cell update -/

theorem core_eq_fields {c d : Cell} (h : c.core = d.core) :
    c.type = d.type ∧ c.cost = d.cost ∧ c.row = d.row ∧ c.col = d.col ∧
    c.omega_in = d.omega_in ∧ c.omega_out = d.omega_out ∧ c.density = d.density := by
  simpa [Cell.core, Prod.ext_iff] using h

theorem coreEq_refl (b : Board) : CoreEq b b := ⟨rfl, rfl, rfl, fun _ _ => rfl⟩

theorem coreEq_statics {c d : Cell} (h : c.core = d.core) : c.statics = d.statics := by
  rcases core_eq_fields h with ⟨h1, h2, h3, h4, h5, h6, _⟩
  simp [Cell.statics, h1, h2, h3, h4, h5, h6]

theorem coreEq_staticEq {b bp : Board} (h : CoreEq b bp) : StaticEq b bp := by
  refine ⟨h.1, h.2.1, h.2.2.1, fun row col => ?_⟩
  have := h.2.2.2 row col
  cases hb : b.cellAt? row col <;> cases hbp : bp.cellAt? row col <;>
    simp [hb, hbp] at this ⊢
  exact coreEq_statics this

theorem visitDir_char (upw : Bool) (er es ciw cow dcur : ℚ) (row col : Nat)
    (b0 : Board) (acc : DirAcc) (hb : CoreEq b0 acc.b) (dir : Dir) :
    CoreEq b0 (visitDir upw er es ciw cow dcur row col acc dir).b ∧
    (visitDir upw er es ciw cow dcur row col acc dir).inAcc =
      acc.inAcc + (dirContrib upw er es ciw cow dcur b0 row col dir).2 ∧
    (visitDir upw er es ciw cow dcur row col acc dir).outAcc =
      acc.outAcc + (dirContrib upw er es ciw cow dcur b0 row col dir).1 ∧
    (WallW b0 acc.b → WallW b0 (visitDir upw er es ciw cow dcur row col acc dir).b) := by
  cases hpos : dirPos? dir row col with
  | none =>
    have hv : visitDir upw er es ciw cow dcur row col acc dir = acc := by
      simp [visitDir, hpos]
    have hc : dirContrib upw er es ciw cow dcur b0 row col dir = (0, 0) := by
      simp [dirContrib, Board.cellAtD?, hpos]
    rw [hv, hc]
    exact ⟨hb, by simp, by simp, fun h => h⟩
  | some rc =>
    have hmap := hb.2.2.2 rc.1 rc.2
    cases hA : acc.b.cellAt? rc.1 rc.2 with
    | none =>
      have h0 : b0.cellAt? rc.1 rc.2 = none := by
        cases h0 : b0.cellAt? rc.1 rc.2
        · rfl
        · rw [h0, hA] at hmap; simp at hmap
      have hv : visitDir upw er es ciw cow dcur row col acc dir = acc := by
        simp [visitDir, hpos, hA]
      have hc : dirContrib upw er es ciw cow dcur b0 row col dir = (0, 0) := by
        simp [dirContrib, Board.cellAtD?, hpos, h0]
      rw [hv, hc]
      exact ⟨hb, by simp, by simp, fun h => h⟩
    | some adjA =>
      have hsome : ∃ adj0, b0.cellAt? rc.1 rc.2 = some adj0 ∧ adj0.core = adjA.core := by
        cases h0 : b0.cellAt? rc.1 rc.2
        · rw [h0, hA] at hmap; simp at hmap
        · rw [h0, hA] at hmap; simp at hmap; exact ⟨_, rfl, hmap⟩
      rcases hsome with ⟨adj0, h0, hcore⟩
      rcases core_eq_fields hcore with ⟨ht, _, _, _, hoi, hoo, hd⟩
      have hcontrib :
          dirContrib upw er es ciw cow dcur b0 row col dir =
            (match adjA.type with
             | CellType.Wall => ((0 : ℚ), (0 : ℚ))
             | CellType.Floor =>
                 (min (cow * dcur) ((if upw then adjA.omega_in else 1 / 4) * (1 - adjA.density)),
                  min ((if upw then adjA.omega_out else 1 / 4) * adjA.density) (ciw * (1 - dcur)))
             | CellType.Emitter =>
                 (0, er * min ((if upw then adjA.omega_out else 1 / 4) * adjA.density)
                   (ciw * (1 - dcur)))
             | CellType.Escape => (es * cow * dcur, 0)) := by
        simp only [dirContrib, Board.cellAtD?, hpos, h0, ht, hoi, hoo, hd]
      have hvisit :
          visitDir upw er es ciw cow dcur row col acc dir =
            { b := acc.b.setCell rc.1 rc.2
                { adjA with
                  intake := (dirContrib upw er es ciw cow dcur b0 row col dir).1,
                  outtake := (dirContrib upw er es ciw cow dcur b0 row col dir).2 },
              inAcc := acc.inAcc + (dirContrib upw er es ciw cow dcur b0 row col dir).2,
              outAcc := acc.outAcc + (dirContrib upw er es ciw cow dcur b0 row col dir).1 } := by
        rw [hcontrib]
        simp only [visitDir, hpos, hA]
      rw [hvisit]
      refine ⟨⟨?_, ?_, ?_, ?_⟩, rfl, rfl, ?_⟩
      · rw [hb.1]; rfl
      · rw [hb.2.1]; rfl
      · rw [hb.2.2.1, setCell_length]
      · intro r c
        by_cases heq : r = rc.1 ∧ c = rc.2
        · rcases heq with ⟨h1, h2⟩
          subst h1; subst h2
          rw [cellAt?_setCell_self hA, h0]
          simp [Cell.core] at hcore ⊢
          exact hcore
        · rw [cellAt?_setCell_other hA _ heq]
          exact hb.2.2.2 r c
      · intro hw r c old new hold hnew hwall
        by_cases heq : r = rc.1 ∧ c = rc.2
        · rcases heq with ⟨h1, h2⟩
          subst h1; subst h2
          rw [cellAt?_setCell_self hA] at hnew
          rw [h0] at hold
          have hold0 : old = adj0 := by injection hold.symm
          have hAW : adj0.type = CellType.Wall := by rw [← hold0]; exact hwall
          have hzero : dirContrib upw er es ciw cow dcur b0 row col dir = (0, 0) := by
            simp only [dirContrib, Board.cellAtD?, hpos, h0, hAW]
          right
          have hnew0 := hnew.symm
          injection hnew0 with hnewrec
          rw [hnewrec, hzero]
          exact ⟨rfl, rfl⟩
        · rw [cellAt?_setCell_other hA _ heq] at hnew
          exact hw r c old new hold hnew hwall

theorem visitFold_char (upw : Bool) (er es ciw cow dcur : ℚ) (row col : Nat)
    (b0 : Board) (L : List Dir) (acc : DirAcc) (hb : CoreEq b0 acc.b) :
    CoreEq b0 (L.foldl (visitDir upw er es ciw cow dcur row col) acc).b ∧
    (L.foldl (visitDir upw er es ciw cow dcur row col) acc).inAcc =
      acc.inAcc + (L.map fun d => (dirContrib upw er es ciw cow dcur b0 row col d).2).sum ∧
    (L.foldl (visitDir upw er es ciw cow dcur row col) acc).outAcc =
      acc.outAcc + (L.map fun d => (dirContrib upw er es ciw cow dcur b0 row col d).1).sum ∧
    (WallW b0 acc.b → WallW b0 (L.foldl (visitDir upw er es ciw cow dcur row col) acc).b) := by
  induction L generalizing acc with
  | nil =>
    refine ⟨hb, by simp, by simp, fun h => h⟩
  | cons dir L ih =>
    rcases visitDir_char upw er es ciw cow dcur row col b0 acc hb dir with ⟨hb1, hin, hout, hww⟩
    rcases ih _ hb1 with ⟨hb2, hin2, hout2, hww2⟩
    refine ⟨hb2, ?_, ?_, ?_⟩
    · rw [List.foldl_cons, hin2, hin]
      simp [add_assoc]
    · rw [List.foldl_cons, hout2, hout]
      simp [add_assoc]
    · intro hw
      rw [List.foldl_cons]
      exact hww2 (hww hw)

/-! ## Neighbor counts as indicator sums, and contribution bounds -/

theorem countStep_eq (b : Board) (row col : Nat) (io : Nat × Nat) (dir : Dir) :
    countStep b row col io dir =
      (io.1 + inInd b row col dir, io.2 + outInd b row col dir) := by
  unfold countStep inInd outInd
  cases hA : b.cellAtD? dir row col with
  | none => simp
  | some adj => cases htype : adj.type <;> simp [htype]

theorem countsFold (b : Board) (row col : Nat) (L : List Dir) (io : Nat × Nat) :
    L.foldl (countStep b row col) io =
      (io.1 + (L.map (inInd b row col)).sum, io.2 + (L.map (outInd b row col)).sum) := by
  induction L generalizing io with
  | nil => simp
  | cons dir L ih =>
    rw [List.foldl_cons, countStep_eq, ih]
    simp [Nat.add_assoc]

theorem neighborCounts_eq (b : Board) (row col : Nat) :
    neighborCounts b row col =
      ((directions.map (inInd b row col)).sum, (directions.map (outInd b row col)).sum) := by
  unfold neighborCounts
  rw [countsFold]
  simp

theorem omegaOf_nonneg (io : Nat × Nat) :
    0 ≤ (omegaOf io).1 ∧ 0 ≤ (omegaOf io).2 := by
  constructor
  · show 0 ≤ (if io.1 = 0 then (0 : ℚ) else 1 / (io.1 : ℚ))
    split
    · exact le_refl 0
    · positivity
  · show 0 ≤ (if io.2 = 0 then (0 : ℚ) else 1 / (io.2 : ℚ))
    split
    · exact le_refl 0
    · positivity

theorem cellAtD?_some {b : Board} {dir : Dir} {row col : Nat} {adj : Cell}
    (h : b.cellAtD? dir row col = some adj) :
    ∃ nr nc, b.cellAt? nr nc = some adj := by
  unfold Board.cellAtD? at h
  cases hpos : dirPos? dir row col with
  | none => rw [hpos] at h; exact absurd h (by simp)
  | some rc => rw [hpos] at h; exact ⟨rc.1, rc.2, h⟩

theorem cell_omega_nonneg {b : Board} (hW : WeightsOk b) {row col : Nat} {cell : Cell}
    (h : b.cellAt? row col = some cell) : 0 ≤ cell.omega_in ∧ 0 ≤ cell.omega_out := by
  rcases hW row col cell h with ⟨h1, h2⟩
  rw [h1, h2]
  exact omegaOf_nonneg _

theorem dirContrib_bounds (upw : Bool) (er es ciw cow dcur : ℚ) (b0 : Board)
    (row col : Nat) (dir : Dir) (hdens : DensIn01 b0)
    (hW : upw = true → WeightsOk b0)
    (her0 : 0 ≤ er) (her1 : er ≤ 1) (hes0 : 0 ≤ es) (hes1 : es ≤ 1)
    (hciw : 0 ≤ ciw) (hcow : 0 ≤ cow) (hd0 : 0 ≤ dcur) (hd1 : dcur ≤ 1) :
    0 ≤ (dirContrib upw er es ciw cow dcur b0 row col dir).1 ∧
    (dirContrib upw er es ciw cow dcur b0 row col dir).1 ≤
      cow * dcur * (outInd b0 row col dir : ℚ) ∧
    0 ≤ (dirContrib upw er es ciw cow dcur b0 row col dir).2 ∧
    (dirContrib upw er es ciw cow dcur b0 row col dir).2 ≤
      ciw * (1 - dcur) * (inInd b0 row col dir : ℚ) := by
  cases hA : b0.cellAtD? dir row col with
  | none =>
    simp only [dirContrib, inInd, outInd, hA, Nat.cast_zero, mul_zero]
    refine ⟨le_refl 0, le_refl 0, le_refl 0, le_refl 0⟩
  | some adj =>
    rcases cellAtD?_some hA with ⟨nr, nc, hposn⟩
    rcases hdens nr nc adj hposn with ⟨ha0, ha1⟩
    have haow : 0 ≤ (if upw = true then adj.omega_out else 1 / 4) := by
      split
      · rename_i hupw
        exact (cell_omega_nonneg (hW hupw) hposn).2
      · norm_num
    have haiw : 0 ≤ (if upw = true then adj.omega_in else 1 / 4) := by
      split
      · rename_i hupw
        exact (cell_omega_nonneg (hW hupw) hposn).1
      · norm_num
    cases htype : adj.type with
    | Wall =>
      simp only [dirContrib, inInd, outInd, hA, htype, Nat.cast_zero, mul_zero]
      refine ⟨le_refl 0, le_refl 0, le_refl 0, le_refl 0⟩
    | Floor =>
      simp only [dirContrib, inInd, outInd, hA, htype, Nat.cast_one, mul_one]
      refine ⟨?_, ?_, ?_, ?_⟩
      · exact le_min (by positivity) (by nlinarith)
      · exact min_le_left _ _
      · exact le_min (by nlinarith) (by nlinarith)
      · exact min_le_right _ _
    | Emitter =>
      simp only [dirContrib, inInd, outInd, hA, htype, Nat.cast_one, Nat.cast_zero,
        mul_one, mul_zero]
      have hmin : 0 ≤ min ((if upw = true then adj.omega_out else 1 / 4) * adj.density)
          (ciw * (1 - dcur)) := le_min (by nlinarith) (by nlinarith)
      have hmin2 : min ((if upw = true then adj.omega_out else 1 / 4) * adj.density)
          (ciw * (1 - dcur)) ≤ ciw * (1 - dcur) := min_le_right _ _
      refine ⟨le_refl 0, le_refl 0, by positivity, by nlinarith⟩
    | Escape =>
      simp only [dirContrib, inInd, outInd, hA, htype, Nat.cast_one, Nat.cast_zero,
        mul_one, mul_zero]
      refine ⟨by positivity, by nlinarith [mul_nonneg hcow hd0], le_refl 0, le_refl 0⟩

theorem inInd_le_one (b : Board) (row col : Nat) (dir : Dir) :
    inInd b row col dir ≤ 1 := by
  unfold inInd
  cases hA : b.cellAtD? dir row col with
  | none => simp
  | some adj => cases htype : adj.type <;> simp [htype]

theorem outInd_le_one (b : Board) (row col : Nat) (dir : Dir) :
    outInd b row col dir ≤ 1 := by
  unfold outInd
  cases hA : b.cellAtD? dir row col with
  | none => simp
  | some adj => cases htype : adj.type <;> simp [htype]

theorem effWeight_mul_count_le_one (w : ℚ) (n : Nat)
    (h : w = (if n = 0 then (0 : ℚ) else 1 / (n : ℚ))) :
    w * (n : ℚ) ≤ 1 := by
  rcases Nat.eq_zero_or_pos n with h0 | hpos
  · subst h0; simp [h]
  · rw [h, if_neg (Nat.pos_iff_ne_zero.mp hpos)]
    rw [div_mul_eq_mul_div, one_mul, div_le_one (by positivity)]

/-! ## Per-cell characterization of the update body -/

theorem coreEq_cellAt?_some {b bp : Board} (h : CoreEq b bp) {r c : Nat} {x : Cell}
    (hx : b.cellAt? r c = some x) : ∃ y, bp.cellAt? r c = some y ∧ y.core = x.core := by
  have hmap := h.2.2.2 r c
  rw [hx] at hmap
  cases hy : bp.cellAt? r c with
  | none => rw [hy] at hmap; simp at hmap
  | some y =>
    rw [hy] at hmap
    simp at hmap
    exact ⟨y, rfl, hmap.symm⟩

theorem coreEq_cellAt?_none {b bp : Board} (h : CoreEq b bp) {r c : Nat}
    (hx : b.cellAt? r c = none) : bp.cellAt? r c = none := by
  have hmap := h.2.2.2 r c
  rw [hx] at hmap
  cases hy : bp.cellAt? r c with
  | none => rfl
  | some y => rw [hy] at hmap; simp at hmap

theorem processCell_master (upw : Bool) (er es : ℚ) (b : Board) (row col : Nat) :
    (processCell upw er es b row col).width = b.width ∧
    (processCell upw er es b row col).height = b.height ∧
    (processCell upw er es b row col).cells.length = b.cells.length ∧
    (∀ r c, (processCell upw er es b row col).cellAt? r c = b.cellAt? r c ∨
      ∃ old new, b.cellAt? r c = some old ∧
        (processCell upw er es b row col).cellAt? r c = some new ∧
        new.type = old.type ∧ new.cost = old.cost ∧ new.row = old.row ∧
        new.col = old.col ∧ new.omega_in = old.omega_in ∧
        new.omega_out = old.omega_out ∧
        (new.density = old.density ∨ (r = row ∧ c = col ∧ old.type = CellType.Floor)) ∧
        (old.type = CellType.Wall →
          ((new.intake = old.intake ∧ new.outtake = old.outtake) ∨
           (new.intake = 0 ∧ new.outtake = 0)))) ∧
    (∀ cur, b.cellAt? row col = some cur →
      ∃ new, (processCell upw er es b row col).cellAt? row col = some new ∧
        new.type = cur.type ∧
        (cur.type ≠ CellType.Floor → new.density = cur.density ∧
          new.intake = 0 ∧ new.outtake = 0)) := by
  cases hcur : b.cellAt? row col with
  | none =>
    have hpc : processCell upw er es b row col = b := by
      simp [processCell, hcur]
    rw [hpc]
    refine ⟨rfl, rfl, rfl, fun r c => Or.inl rfl, fun cur hc => ?_⟩
    exact absurd hc (by simp)
  | some cur =>
    cases htype : cur.type with
    | Wall =>
      have hpc : processCell upw er es b row col =
          b.setCell row col { cur with intake := 0, outtake := 0 } := by
        simp [processCell, hcur, htype]
      rw [hpc]
      refine ⟨rfl, rfl, setCell_length b row col _, fun r c => ?_, fun cur2 hc2 => ?_⟩
      · by_cases heq : r = row ∧ c = col
        · rcases heq with ⟨h1, h2⟩
          subst h1; subst h2
          refine Or.inr ⟨cur, _, hcur, cellAt?_setCell_self hcur _, rfl, rfl, rfl, rfl,
            rfl, rfl, Or.inl rfl, fun _ => Or.inr ⟨rfl, rfl⟩⟩
        · exact Or.inl (cellAt?_setCell_other hcur _ heq)
      · injection hc2 with hc2
        subst hc2
        exact ⟨_, cellAt?_setCell_self hcur _, rfl, fun _ => ⟨rfl, rfl, rfl⟩⟩
    | Emitter =>
      have hpc : processCell upw er es b row col =
          (b.setCell row col { cur with intake := 0, outtake := 0 }).writePixelRGB row col
            (toUchar (255 * er)) (255 - toUchar (255 * er)) (255 - toUchar (255 * er)) := by
        simp [processCell, hcur, htype]
      rw [hpc]
      refine ⟨rfl, rfl, setCell_length b row col _, fun r c => ?_, fun cur2 hc2 => ?_⟩
      · rw [cellAt?_writePixelRGB]
        by_cases heq : r = row ∧ c = col
        · rcases heq with ⟨h1, h2⟩
          subst h1; subst h2
          refine Or.inr ⟨cur, _, hcur, cellAt?_setCell_self hcur _, rfl, rfl, rfl, rfl,
            rfl, rfl, Or.inl rfl, fun hW => Or.inr ⟨rfl, rfl⟩⟩
        · exact Or.inl (cellAt?_setCell_other hcur _ heq)
      · injection hc2 with hc2
        subst hc2
        rw [cellAt?_writePixelRGB]
        exact ⟨_, cellAt?_setCell_self hcur _, rfl, fun _ => ⟨rfl, rfl, rfl⟩⟩
    | Escape =>
      have hpc : processCell upw er es b row col =
          (b.setCell row col { cur with intake := 0, outtake := 0 }).writePixelRGB row col
            (255 - toUchar (255 * es)) (255 - toUchar (255 * es)) (toUchar (255 * es)) := by
        simp [processCell, hcur, htype]
      rw [hpc]
      refine ⟨rfl, rfl, setCell_length b row col _, fun r c => ?_, fun cur2 hc2 => ?_⟩
      · rw [cellAt?_writePixelRGB]
        by_cases heq : r = row ∧ c = col
        · rcases heq with ⟨h1, h2⟩
          subst h1; subst h2
          refine Or.inr ⟨cur, _, hcur, cellAt?_setCell_self hcur _, rfl, rfl, rfl, rfl,
            rfl, rfl, Or.inl rfl, fun hW => Or.inr ⟨rfl, rfl⟩⟩
        · exact Or.inl (cellAt?_setCell_other hcur _ heq)
      · injection hc2 with hc2
        subst hc2
        rw [cellAt?_writePixelRGB]
        exact ⟨_, cellAt?_setCell_self hcur _, rfl, fun _ => ⟨rfl, rfl, rfl⟩⟩
    | Floor =>
      rcases visitFold_char upw er es (if upw then cur.omega_in else 1 / 4)
        (if upw then cur.omega_out else 1 / 4) cur.density row col b directions
        { b := b, inAcc := 0, outAcc := 0 } (coreEq_refl b) with ⟨hco, hin, hout, hww⟩
      have hwallb : WallW b b := fun _ _ _ _ h1 h2 _ => by
        rw [h1] at h2; injection h2 with h2; subst h2; exact Or.inl ⟨rfl, rfl⟩
      have hwall := hww hwallb
      rcases coreEq_cellAt?_some hco hcur with ⟨mid, hmid, hmidcore⟩
      have hpc : processCell upw er es b row col =
          ((directions.foldl (visitDir upw er es (if upw then cur.omega_in else 1 / 4)
              (if upw then cur.omega_out else 1 / 4) cur.density row col)
              { b := b, inAcc := 0, outAcc := 0 }).b.setCell row col
            { cur with
              intake := (directions.foldl (visitDir upw er es
                (if upw then cur.omega_in else 1 / 4)
                (if upw then cur.omega_out else 1 / 4) cur.density row col)
                { b := b, inAcc := 0, outAcc := 0 }).inAcc,
              outtake := (directions.foldl (visitDir upw er es
                (if upw then cur.omega_in else 1 / 4)
                (if upw then cur.omega_out else 1 / 4) cur.density row col)
                { b := b, inAcc := 0, outAcc := 0 }).outAcc,
              density := cur.density + (directions.foldl (visitDir upw er es
                (if upw then cur.omega_in else 1 / 4)
                (if upw then cur.omega_out else 1 / 4) cur.density row col)
                { b := b, inAcc := 0, outAcc := 0 }).inAcc -
                (directions.foldl (visitDir upw er es
                  (if upw then cur.omega_in else 1 / 4)
                  (if upw then cur.omega_out else 1 / 4) cur.density row col)
                  { b := b, inAcc := 0, outAcc := 0 }).outAcc }).writePixelRGB row col
            (toUchar (255 - 255 * (cur.density + (directions.foldl (visitDir upw er es
              (if upw then cur.omega_in else 1 / 4)
              (if upw then cur.omega_out else 1 / 4) cur.density row col)
              { b := b, inAcc := 0, outAcc := 0 }).inAcc -
              (directions.foldl (visitDir upw er es
                (if upw then cur.omega_in else 1 / 4)
                (if upw then cur.omega_out else 1 / 4) cur.density row col)
                { b := b, inAcc := 0, outAcc := 0 }).outAcc)))
            (toUchar (255 - 255 * (cur.density + (directions.foldl (visitDir upw er es
              (if upw then cur.omega_in else 1 / 4)
              (if upw then cur.omega_out else 1 / 4) cur.density row col)
              { b := b, inAcc := 0, outAcc := 0 }).inAcc -
              (directions.foldl (visitDir upw er es
                (if upw then cur.omega_in else 1 / 4)
                (if upw then cur.omega_out else 1 / 4) cur.density row col)
                { b := b, inAcc := 0, outAcc := 0 }).outAcc)))
            (toUchar (255 - 255 * (cur.density + (directions.foldl (visitDir upw er es
              (if upw then cur.omega_in else 1 / 4)
              (if upw then cur.omega_out else 1 / 4) cur.density row col)
              { b := b, inAcc := 0, outAcc := 0 }).inAcc -
              (directions.foldl (visitDir upw er es
                (if upw then cur.omega_in else 1 / 4)
                (if upw then cur.omega_out else 1 / 4) cur.density row col)
                { b := b, inAcc := 0, outAcc := 0 }).outAcc))) := by
        simp only [processCell, hcur, htype]
      rw [hpc]
      refine ⟨?_, ?_, ?_, fun r c => ?_, fun cur2 hc2 => ?_⟩
      · rw [writePixelRGB_width, setCell_width, ← hco.1]
      · rw [writePixelRGB_height, setCell_height, ← hco.2.1]
      · rw [writePixelRGB_length, setCell_length, ← hco.2.2.1]
      · rw [cellAt?_writePixelRGB]
        by_cases heq : r = row ∧ c = col
        · rcases heq with ⟨h1, h2⟩
          subst h1; subst h2
          refine Or.inr ⟨cur, _, hcur, cellAt?_setCell_self hmid _, rfl, rfl, rfl, rfl,
            rfl, rfl, Or.inr ⟨rfl, rfl, htype⟩, fun hW => absurd (htype ▸ hW) (by simp)⟩
        · rw [cellAt?_setCell_other hmid _ heq]
          cases hbrc : b.cellAt? r c with
          | none => exact Or.inl (coreEq_cellAt?_none hco hbrc)
          | some old =>
            rcases coreEq_cellAt?_some hco hbrc with ⟨midc, hmidc, hmidccore⟩
            rcases core_eq_fields hmidccore with ⟨k1, k2, k3, k4, k5, k6, k7⟩
            refine Or.inr ⟨old, midc, rfl, hmidc, k1, k2, k3, k4, k5, k6, Or.inl k7, ?_⟩
            intro hW
            rcases hwall r c old midc hbrc hmidc hW with h | h
            · exact Or.inl h
            · exact Or.inr h
      · injection hc2 with hc2
        subst hc2
        rw [cellAt?_writePixelRGB]
        exact ⟨_, cellAt?_setCell_self hmid _, rfl, fun hne => absurd htype hne⟩

/-! ## Density bounds for the Floor update -/

theorem omegaOf_fst (io : Nat × Nat) :
    (omegaOf io).1 = if io.1 = 0 then (0 : ℚ) else 1 / (io.1 : ℚ) := rfl

theorem omegaOf_snd (io : Nat × Nat) :
    (omegaOf io).2 = if io.2 = 0 then (0 : ℚ) else 1 / (io.2 : ℚ) := rfl

theorem floor_newd_bounds (upw : Bool) (er es : ℚ) (b : Board) (row col : Nat)
    (cur : Cell) (hcur : b.cellAt? row col = some cur)
    (hd : DensIn01 b) (hW : upw = true → WeightsOk b)
    (her0 : 0 ≤ er) (her1 : er ≤ 1) (hes0 : 0 ≤ es) (hes1 : es ≤ 1) :
    0 ≤ cur.density +
        (directions.map fun d => (dirContrib upw er es
          (if upw then cur.omega_in else 1 / 4) (if upw then cur.omega_out else 1 / 4)
          cur.density b row col d).2).sum -
        (directions.map fun d => (dirContrib upw er es
          (if upw then cur.omega_in else 1 / 4) (if upw then cur.omega_out else 1 / 4)
          cur.density b row col d).1).sum ∧
    cur.density +
        (directions.map fun d => (dirContrib upw er es
          (if upw then cur.omega_in else 1 / 4) (if upw then cur.omega_out else 1 / 4)
          cur.density b row col d).2).sum -
        (directions.map fun d => (dirContrib upw er es
          (if upw then cur.omega_in else 1 / 4) (if upw then cur.omega_out else 1 / 4)
          cur.density b row col d).1).sum ≤ 1 := by
  rcases hd row col cur hcur with ⟨hd0, hd1⟩
  have hciw : 0 ≤ (if upw then cur.omega_in else 1 / 4) := by
    split
    · rename_i hupw
      exact (cell_omega_nonneg (hW (by simpa using hupw)) hcur).1
    · norm_num
  have hcow : 0 ≤ (if upw then cur.omega_out else 1 / 4) := by
    split
    · rename_i hupw
      exact (cell_omega_nonneg (hW (by simpa using hupw)) hcur).2
    · norm_num
  have BN := dirContrib_bounds upw er es (if upw then cur.omega_in else 1 / 4)
    (if upw then cur.omega_out else 1 / 4) cur.density b row col Dir.North hd hW
    her0 her1 hes0 hes1 hciw hcow hd0 hd1
  have BS := dirContrib_bounds upw er es (if upw then cur.omega_in else 1 / 4)
    (if upw then cur.omega_out else 1 / 4) cur.density b row col Dir.South hd hW
    her0 her1 hes0 hes1 hciw hcow hd0 hd1
  have BW := dirContrib_bounds upw er es (if upw then cur.omega_in else 1 / 4)
    (if upw then cur.omega_out else 1 / 4) cur.density b row col Dir.West hd hW
    her0 her1 hes0 hes1 hciw hcow hd0 hd1
  have BE := dirContrib_bounds upw er es (if upw then cur.omega_in else 1 / 4)
    (if upw then cur.omega_out else 1 / 4) cur.density b row col Dir.East hd hW
    her0 her1 hes0 hes1 hciw hcow hd0 hd1
  have hinsum : ((neighborCounts b row col).1 : ℚ) =
      (inInd b row col Dir.North : ℚ) + (inInd b row col Dir.South : ℚ) +
      (inInd b row col Dir.West : ℚ) + (inInd b row col Dir.East : ℚ) := by
    rw [neighborCounts_eq]
    simp [directions]
    ring
  have houtsum : ((neighborCounts b row col).2 : ℚ) =
      (outInd b row col Dir.North : ℚ) + (outInd b row col Dir.South : ℚ) +
      (outInd b row col Dir.West : ℚ) + (outInd b row col Dir.East : ℚ) := by
    rw [neighborCounts_eq]
    simp [directions]
    ring
  have hinw : (if upw then cur.omega_in else 1 / 4) *
      ((neighborCounts b row col).1 : ℚ) ≤ 1 := by
    split
    · rename_i hupw
      have := (hW (by simpa using hupw) row col cur hcur).1
      rw [omegaOf_fst] at this
      exact effWeight_mul_count_le_one _ _ this
    · have h1 : (inInd b row col Dir.North : ℚ) ≤ 1 := by
        exact_mod_cast inInd_le_one b row col Dir.North
      have h2 : (inInd b row col Dir.South : ℚ) ≤ 1 := by
        exact_mod_cast inInd_le_one b row col Dir.South
      have h3 : (inInd b row col Dir.West : ℚ) ≤ 1 := by
        exact_mod_cast inInd_le_one b row col Dir.West
      have h4 : (inInd b row col Dir.East : ℚ) ≤ 1 := by
        exact_mod_cast inInd_le_one b row col Dir.East
      rw [hinsum]
      linarith
  have houtw : (if upw then cur.omega_out else 1 / 4) *
      ((neighborCounts b row col).2 : ℚ) ≤ 1 := by
    split
    · rename_i hupw
      have := (hW (by simpa using hupw) row col cur hcur).2
      rw [omegaOf_snd] at this
      exact effWeight_mul_count_le_one _ _ this
    · have h1 : (outInd b row col Dir.North : ℚ) ≤ 1 := by
        exact_mod_cast outInd_le_one b row col Dir.North
      have h2 : (outInd b row col Dir.South : ℚ) ≤ 1 := by
        exact_mod_cast outInd_le_one b row col Dir.South
      have h3 : (outInd b row col Dir.West : ℚ) ≤ 1 := by
        exact_mod_cast outInd_le_one b row col Dir.West
      have h4 : (outInd b row col Dir.East : ℚ) ≤ 1 := by
        exact_mod_cast outInd_le_one b row col Dir.East
      rw [houtsum]
      linarith
  have hsum2 : (directions.map fun d => (dirContrib upw er es
      (if upw then cur.omega_in else 1 / 4) (if upw then cur.omega_out else 1 / 4)
      cur.density b row col d).2).sum =
      (dirContrib upw er es (if upw then cur.omega_in else 1 / 4)
        (if upw then cur.omega_out else 1 / 4) cur.density b row col Dir.North).2 +
      (dirContrib upw er es (if upw then cur.omega_in else 1 / 4)
        (if upw then cur.omega_out else 1 / 4) cur.density b row col Dir.South).2 +
      (dirContrib upw er es (if upw then cur.omega_in else 1 / 4)
        (if upw then cur.omega_out else 1 / 4) cur.density b row col Dir.West).2 +
      (dirContrib upw er es (if upw then cur.omega_in else 1 / 4)
        (if upw then cur.omega_out else 1 / 4) cur.density b row col Dir.East).2 := by
    simp [directions]
    ring
  have hsum1 : (directions.map fun d => (dirContrib upw er es
      (if upw then cur.omega_in else 1 / 4) (if upw then cur.omega_out else 1 / 4)
      cur.density b row col d).1).sum =
      (dirContrib upw er es (if upw then cur.omega_in else 1 / 4)
        (if upw then cur.omega_out else 1 / 4) cur.density b row col Dir.North).1 +
      (dirContrib upw er es (if upw then cur.omega_in else 1 / 4)
        (if upw then cur.omega_out else 1 / 4) cur.density b row col Dir.South).1 +
      (dirContrib upw er es (if upw then cur.omega_in else 1 / 4)
        (if upw then cur.omega_out else 1 / 4) cur.density b row col Dir.West).1 +
      (dirContrib upw er es (if upw then cur.omega_in else 1 / 4)
        (if upw then cur.omega_out else 1 / 4) cur.density b row col Dir.East).1 := by
    simp [directions]
    ring
  rw [hsum1, hsum2]
  have hIN : (dirContrib upw er es (if upw then cur.omega_in else 1 / 4)
      (if upw then cur.omega_out else 1 / 4) cur.density b row col Dir.North).2 +
      (dirContrib upw er es (if upw then cur.omega_in else 1 / 4)
        (if upw then cur.omega_out else 1 / 4) cur.density b row col Dir.South).2 +
      (dirContrib upw er es (if upw then cur.omega_in else 1 / 4)
        (if upw then cur.omega_out else 1 / 4) cur.density b row col Dir.West).2 +
      (dirContrib upw er es (if upw then cur.omega_in else 1 / 4)
        (if upw then cur.omega_out else 1 / 4) cur.density b row col Dir.East).2 ≤
      1 - cur.density := by
    have hchain : (if upw then cur.omega_in else 1 / 4) * (1 - cur.density) *
        ((neighborCounts b row col).1 : ℚ) ≤ 1 - cur.density := by
      have h1d : 0 ≤ 1 - cur.density := by linarith
      have := mul_le_mul_of_nonneg_right hinw h1d
      calc (if upw then cur.omega_in else 1 / 4) * (1 - cur.density) *
          ((neighborCounts b row col).1 : ℚ)
          = (if upw then cur.omega_in else 1 / 4) *
            ((neighborCounts b row col).1 : ℚ) * (1 - cur.density) := by ring
        _ ≤ 1 * (1 - cur.density) := this
        _ = 1 - cur.density := one_mul _
    rw [hinsum] at hchain
    calc (dirContrib upw er es (if upw then cur.omega_in else 1 / 4)
          (if upw then cur.omega_out else 1 / 4) cur.density b row col Dir.North).2 +
        (dirContrib upw er es (if upw then cur.omega_in else 1 / 4)
          (if upw then cur.omega_out else 1 / 4) cur.density b row col Dir.South).2 +
        (dirContrib upw er es (if upw then cur.omega_in else 1 / 4)
          (if upw then cur.omega_out else 1 / 4) cur.density b row col Dir.West).2 +
        (dirContrib upw er es (if upw then cur.omega_in else 1 / 4)
          (if upw then cur.omega_out else 1 / 4) cur.density b row col Dir.East).2 ≤
        (if upw then cur.omega_in else 1 / 4) * (1 - cur.density) *
          (inInd b row col Dir.North : ℚ) +
        (if upw then cur.omega_in else 1 / 4) * (1 - cur.density) *
          (inInd b row col Dir.South : ℚ) +
        (if upw then cur.omega_in else 1 / 4) * (1 - cur.density) *
          (inInd b row col Dir.West : ℚ) +
        (if upw then cur.omega_in else 1 / 4) * (1 - cur.density) *
          (inInd b row col Dir.East : ℚ) :=
        add_le_add (add_le_add (add_le_add BN.2.2.2 BS.2.2.2) BW.2.2.2) BE.2.2.2
      _ = (if upw then cur.omega_in else 1 / 4) * (1 - cur.density) *
          ((inInd b row col Dir.North : ℚ) + (inInd b row col Dir.South : ℚ) +
           (inInd b row col Dir.West : ℚ) + (inInd b row col Dir.East : ℚ)) := by ring
      _ ≤ 1 - cur.density := hchain
  have hOUT : (dirContrib upw er es (if upw then cur.omega_in else 1 / 4)
      (if upw then cur.omega_out else 1 / 4) cur.density b row col Dir.North).1 +
      (dirContrib upw er es (if upw then cur.omega_in else 1 / 4)
        (if upw then cur.omega_out else 1 / 4) cur.density b row col Dir.South).1 +
      (dirContrib upw er es (if upw then cur.omega_in else 1 / 4)
        (if upw then cur.omega_out else 1 / 4) cur.density b row col Dir.West).1 +
      (dirContrib upw er es (if upw then cur.omega_in else 1 / 4)
        (if upw then cur.omega_out else 1 / 4) cur.density b row col Dir.East).1 ≤
      cur.density := by
    have hchain : (if upw then cur.omega_out else 1 / 4) * cur.density *
        ((neighborCounts b row col).2 : ℚ) ≤ cur.density := by
      have := mul_le_mul_of_nonneg_right houtw hd0
      calc (if upw then cur.omega_out else 1 / 4) * cur.density *
          ((neighborCounts b row col).2 : ℚ)
          = (if upw then cur.omega_out else 1 / 4) *
            ((neighborCounts b row col).2 : ℚ) * cur.density := by ring
        _ ≤ 1 * cur.density := this
        _ = cur.density := one_mul _
    rw [houtsum] at hchain
    calc (dirContrib upw er es (if upw then cur.omega_in else 1 / 4)
          (if upw then cur.omega_out else 1 / 4) cur.density b row col Dir.North).1 +
        (dirContrib upw er es (if upw then cur.omega_in else 1 / 4)
          (if upw then cur.omega_out else 1 / 4) cur.density b row col Dir.South).1 +
        (dirContrib upw er es (if upw then cur.omega_in else 1 / 4)
          (if upw then cur.omega_out else 1 / 4) cur.density b row col Dir.West).1 +
        (dirContrib upw er es (if upw then cur.omega_in else 1 / 4)
          (if upw then cur.omega_out else 1 / 4) cur.density b row col Dir.East).1 ≤
        (if upw then cur.omega_out else 1 / 4) * cur.density *
          (outInd b row col Dir.North : ℚ) +
        (if upw then cur.omega_out else 1 / 4) * cur.density *
          (outInd b row col Dir.South : ℚ) +
        (if upw then cur.omega_out else 1 / 4) * cur.density *
          (outInd b row col Dir.West : ℚ) +
        (if upw then cur.omega_out else 1 / 4) * cur.density *
          (outInd b row col Dir.East : ℚ) :=
        add_le_add (add_le_add (add_le_add BN.2.1 BS.2.1) BW.2.1) BE.2.1
      _ = (if upw then cur.omega_out else 1 / 4) * cur.density *
          ((outInd b row col Dir.North : ℚ) + (outInd b row col Dir.South : ℚ) +
           (outInd b row col Dir.West : ℚ) + (outInd b row col Dir.East : ℚ)) := by ring
      _ ≤ cur.density := hchain
  have hIN0 : 0 ≤ (dirContrib upw er es (if upw then cur.omega_in else 1 / 4)
      (if upw then cur.omega_out else 1 / 4) cur.density b row col Dir.North).2 +
      (dirContrib upw er es (if upw then cur.omega_in else 1 / 4)
        (if upw then cur.omega_out else 1 / 4) cur.density b row col Dir.South).2 +
      (dirContrib upw er es (if upw then cur.omega_in else 1 / 4)
        (if upw then cur.omega_out else 1 / 4) cur.density b row col Dir.West).2 +
      (dirContrib upw er es (if upw then cur.omega_in else 1 / 4)
        (if upw then cur.omega_out else 1 / 4) cur.density b row col Dir.East).2 :=
    add_nonneg (add_nonneg (add_nonneg BN.2.2.1 BS.2.2.1) BW.2.2.1) BE.2.2.1
  have hOUT0 : 0 ≤ (dirContrib upw er es (if upw then cur.omega_in else 1 / 4)
      (if upw then cur.omega_out else 1 / 4) cur.density b row col Dir.North).1 +
      (dirContrib upw er es (if upw then cur.omega_in else 1 / 4)
        (if upw then cur.omega_out else 1 / 4) cur.density b row col Dir.South).1 +
      (dirContrib upw er es (if upw then cur.omega_in else 1 / 4)
        (if upw then cur.omega_out else 1 / 4) cur.density b row col Dir.West).1 +
      (dirContrib upw er es (if upw then cur.omega_in else 1 / 4)
        (if upw then cur.omega_out else 1 / 4) cur.density b row col Dir.East).1 :=
    add_nonneg (add_nonneg (add_nonneg BN.1 BS.1) BW.1) BE.1
  constructor
  · linarith [hIN0, hOUT]
  · linarith [hOUT0, hIN]

theorem processCell_dens01 (upw : Bool) (er es : ℚ) (b : Board) (row col : Nat)
    (hd : DensIn01 b) (hW : upw = true → WeightsOk b)
    (her0 : 0 ≤ er) (her1 : er ≤ 1) (hes0 : 0 ≤ es) (hes1 : es ≤ 1) :
    DensIn01 (processCell upw er es b row col) := by
  intro r c cell hcell
  rcases (processCell_master upw er es b row col).2.2.2.1 r c with hid |
    ⟨old, new, hold, hnew, _, _, _, _, _, _, hdc, _⟩
  · rw [hid] at hcell
    exact hd r c cell hcell
  · rw [hnew] at hcell
    injection hcell with hcell
    subst hcell
    rcases hdc with hsame | ⟨h1, h2, hfl⟩
    · rw [hsame]
      exact hd r c old hold
    · subst h1; subst h2
      rcases visitFold_char upw er es (if upw then old.omega_in else 1 / 4)
        (if upw then old.omega_out else 1 / 4) old.density r c b directions
        { b := b, inAcc := 0, outAcc := 0 } (coreEq_refl b) with ⟨hco, hin, hout, _⟩
      rcases coreEq_cellAt?_some hco hold with ⟨mid, hmid, _⟩
      have hval : (processCell upw er es b r c).cellAt? r c =
          some { old with
            intake := (directions.foldl (visitDir upw er es
              (if upw then old.omega_in else 1 / 4)
              (if upw then old.omega_out else 1 / 4) old.density r c)
              { b := b, inAcc := 0, outAcc := 0 }).inAcc,
            outtake := (directions.foldl (visitDir upw er es
              (if upw then old.omega_in else 1 / 4)
              (if upw then old.omega_out else 1 / 4) old.density r c)
              { b := b, inAcc := 0, outAcc := 0 }).outAcc,
            density := old.density + (directions.foldl (visitDir upw er es
              (if upw then old.omega_in else 1 / 4)
              (if upw then old.omega_out else 1 / 4) old.density r c)
              { b := b, inAcc := 0, outAcc := 0 }).inAcc -
              (directions.foldl (visitDir upw er es
                (if upw then old.omega_in else 1 / 4)
                (if upw then old.omega_out else 1 / 4) old.density r c)
                { b := b, inAcc := 0, outAcc := 0 }).outAcc } := by
        simp only [processCell, hold, hfl]
        rw [cellAt?_writePixelRGB, cellAt?_setCell_self hmid]
      rw [hval] at hnew
      injection hnew with hnew
      rw [← hnew]
      simp only []
      rw [hin, hout]
      simp only [zero_add]
      exact floor_newd_bounds upw er es b r c old hold hd hW her0 her1 hes0 hes1

/-! ## Relations between boards across the scan, and the full board update -/

theorem statics_eq_fields {c d : Cell} (h : c.statics = d.statics) :
    c.type = d.type ∧ c.cost = d.cost ∧ c.row = d.row ∧ c.col = d.col ∧
    c.omega_in = d.omega_in ∧ c.omega_out = d.omega_out := by
  simpa [Cell.statics, Prod.ext_iff] using h

theorem staticEq_refl (b : Board) : StaticEq b b := ⟨rfl, rfl, rfl, fun _ _ => rfl⟩

theorem staticEq_trans {a b c : Board} (h1 : StaticEq a b) (h2 : StaticEq b c) :
    StaticEq a c := by
  refine ⟨h1.1.trans h2.1, h1.2.1.trans h2.2.1, h1.2.2.1.trans h2.2.2.1, fun r cc => ?_⟩
  exact (h1.2.2.2 r cc).trans (h2.2.2.2 r cc)

theorem staticEq_cellAt?_some {b bp : Board} (h : StaticEq b bp) {r c : Nat} {x : Cell}
    (hx : b.cellAt? r c = some x) :
    ∃ y, bp.cellAt? r c = some y ∧ y.statics = x.statics := by
  have hmap := h.2.2.2 r c
  rw [hx] at hmap
  cases hy : bp.cellAt? r c with
  | none => rw [hy] at hmap; simp at hmap
  | some y =>
    rw [hy] at hmap
    simp at hmap
    exact ⟨y, rfl, hmap.symm⟩

theorem staticEq_cellAt?_none {b bp : Board} (h : StaticEq b bp) {r c : Nat}
    (hx : b.cellAt? r c = none) : bp.cellAt? r c = none := by
  have hmap := h.2.2.2 r c
  rw [hx] at hmap
  cases hy : bp.cellAt? r c with
  | none => rfl
  | some y => rw [hy] at hmap; simp at hmap

theorem staticEq_inInd {b bp : Board} (h : StaticEq b bp) (r c : Nat) (dir : Dir) :
    inInd b r c dir = inInd bp r c dir := by
  unfold inInd Board.cellAtD?
  cases hpos : dirPos? dir r c with
  | none => rfl
  | some rc =>
    simp only []
    cases hx : b.cellAt? rc.1 rc.2 with
    | none => rw [staticEq_cellAt?_none h hx]
    | some x =>
      rcases staticEq_cellAt?_some h hx with ⟨y, hy, hsy⟩
      rw [hy]
      simp only []
      rw [(statics_eq_fields hsy).1]

theorem staticEq_outInd {b bp : Board} (h : StaticEq b bp) (r c : Nat) (dir : Dir) :
    outInd b r c dir = outInd bp r c dir := by
  unfold outInd Board.cellAtD?
  cases hpos : dirPos? dir r c with
  | none => rfl
  | some rc =>
    simp only []
    cases hx : b.cellAt? rc.1 rc.2 with
    | none => rw [staticEq_cellAt?_none h hx]
    | some x =>
      rcases staticEq_cellAt?_some h hx with ⟨y, hy, hsy⟩
      rw [hy]
      simp only []
      rw [(statics_eq_fields hsy).1]

theorem staticEq_counts {b bp : Board} (h : StaticEq b bp) (r c : Nat) :
    neighborCounts b r c = neighborCounts bp r c := by
  rw [neighborCounts_eq, neighborCounts_eq]
  have h1 : ∀ dir, inInd b r c dir = inInd bp r c dir := staticEq_inInd h r c
  have h2 : ∀ dir, outInd b r c dir = outInd bp r c dir := staticEq_outInd h r c
  simp [directions, h1, h2]

theorem staticEq_weightsOk {b bp : Board} (h : StaticEq b bp) (hW : WeightsOk b) :
    WeightsOk bp := by
  intro r c cell hcell
  have hmap := h.2.2.2 r c
  rw [hcell] at hmap
  cases hx : b.cellAt? r c with
  | none => rw [hx] at hmap; simp at hmap
  | some x =>
    rw [hx] at hmap
    simp at hmap
    rcases statics_eq_fields hmap with ⟨_, _, _, _, h5, h6⟩
    rcases hW r c x hx with ⟨w1, w2⟩
    rw [← h5, ← h6, w1, w2, staticEq_counts h r c]
    exact ⟨rfl, rfl⟩

theorem processCell_staticEq (upw : Bool) (er es : ℚ) (b : Board) (row col : Nat) :
    StaticEq b (processCell upw er es b row col) := by
  rcases processCell_master upw er es b row col with ⟨h1, h2, h3, h4, _⟩
  refine ⟨h1.symm, h2.symm, h3.symm, fun r c => ?_⟩
  rcases h4 r c with hid | ⟨old, new, hold, hnew, k1, k2, k3, k4, k5, k6, _, _⟩
  · rw [hid]
  · rw [hold, hnew]
    simp [Cell.statics, k1, k2, k3, k4, k5, k6]

theorem processCell_updRel (upw : Bool) (er es : ℚ) (b : Board) (row col : Nat) :
    UpdRel b (processCell upw er es b row col) := by
  refine ⟨processCell_staticEq upw er es b row col, fun r c cell cellp hc hcp hnf => ?_⟩
  rcases (processCell_master upw er es b row col).2.2.2.1 r c with hid |
    ⟨old, new, hold, hnew, _, _, _, _, _, _, hdc, _⟩
  · rw [hid, hc] at hcp
    injection hcp with hcp
    rw [hcp]
  · rw [hold] at hc
    injection hc with hc
    subst hc
    rw [hnew] at hcp
    injection hcp with hcp
    subst hcp
    rcases hdc with hsame | ⟨_, _, hfl⟩
    · exact hsame
    · exact absurd hfl hnf

theorem updRel_refl (b : Board) : UpdRel b b := by
  refine ⟨staticEq_refl b, fun r c cell cellp hc hcp _ => ?_⟩
  rw [hc] at hcp
  injection hcp with hcp
  rw [hcp]

theorem updRel_trans {a b c : Board} (h1 : UpdRel a b) (h2 : UpdRel b c) : UpdRel a c := by
  refine ⟨staticEq_trans h1.1 h2.1, fun r cc cell cellp hc hcp hnf => ?_⟩
  rcases staticEq_cellAt?_some h1.1 hc with ⟨mid, hmid, hsm⟩
  have hmnf : mid.type ≠ CellType.Floor := by
    rw [(statics_eq_fields hsm).1]
    exact hnf
  rw [h2.2 r cc mid cellp hmid hcp hmnf, h1.2 r cc cell mid hc hmid hnf]

theorem mem_scanPositions {r c h w : Nat} (hr : r < h) (hc : c < w) :
    (r, c) ∈ scanPositions h w := by
  unfold scanPositions
  have hw : 0 < w := Nat.lt_of_le_of_lt (Nat.zero_le _) hc
  refine List.mem_map.mpr ⟨r * w + c, List.mem_range.mpr (row_major_lt hr hc), ?_⟩
  have hdiv : (r * w + c) / w = r := by
    rw [Nat.add_comm, Nat.add_mul_div_right c r hw, Nat.div_eq_of_lt hc, Nat.zero_add]
  have hmod : (r * w + c) % w = c := by
    rw [Nat.add_comm, Nat.add_mul_mod_self_right, Nat.mod_eq_of_lt hc]
  rw [hdiv, hmod]

theorem scanFold_updRel (upw : Bool) (er es : ℚ) (L : List (Nat × Nat)) (b : Board) :
    UpdRel b (L.foldl (fun acc rc => processCell upw er es acc rc.1 rc.2) b) := by
  suffices hgen : ∀ acc, UpdRel b acc →
      UpdRel b (L.foldl (fun acc rc => processCell upw er es acc rc.1 rc.2) acc) from
    hgen b (updRel_refl b)
  induction L with
  | nil => intro acc h; exact h
  | cons rc L ih =>
    intro acc h
    rw [List.foldl_cons]
    exact ih _ (updRel_trans h (processCell_updRel upw er es acc rc.1 rc.2))

theorem boardUpdate_updRel (upw : Bool) (er es : ℚ) (b : Board) :
    UpdRel b (boardUpdate upw er es b) :=
  scanFold_updRel upw er es _ b

theorem scanFold_dens01 (upw : Bool) (er es : ℚ) (L : List (Nat × Nat)) (b : Board)
    (hW : upw = true → WeightsOk b)
    (her0 : 0 ≤ er) (her1 : er ≤ 1) (hes0 : 0 ≤ es) (hes1 : es ≤ 1) :
    ∀ acc, StaticEq b acc → DensIn01 acc →
      DensIn01 (L.foldl (fun acc rc => processCell upw er es acc rc.1 rc.2) acc) := by
  induction L with
  | nil => intro acc _ hd; exact hd
  | cons rc L ih =>
    intro acc hse hd
    rw [List.foldl_cons]
    refine ih _ (staticEq_trans hse (processCell_staticEq upw er es acc rc.1 rc.2)) ?_
    refine processCell_dens01 upw er es acc rc.1 rc.2 hd ?_ her0 her1 hes0 hes1
    intro hupw
    exact staticEq_weightsOk hse (hW hupw)

theorem boardUpdate_dens01 (upw : Bool) (er es : ℚ) (b : Board)
    (hW : upw = true → WeightsOk b) (hd : DensIn01 b)
    (her0 : 0 ≤ er) (her1 : er ≤ 1) (hes0 : 0 ≤ es) (hes1 : es ≤ 1) :
    DensIn01 (boardUpdate upw er es b) :=
  scanFold_dens01 upw er es _ b hW her0 her1 hes0 hes1 b (staticEq_refl b) hd

theorem processCell_wallZeroAt_pres (upw : Bool) (er es : ℚ) (acc : Board)
    (q1 q2 : Nat) {r c : Nat} (h : WallZeroAt acc r c) :
    WallZeroAt (processCell upw er es acc q1 q2) r c := by
  intro cell hcell htype
  rcases (processCell_master upw er es acc q1 q2).2.2.2.1 r c with hid |
    ⟨old, new, hold, hnew, k1, _, _, _, _, _, _, kw⟩
  · rw [hid] at hcell
    exact h cell hcell htype
  · rw [hnew] at hcell
    injection hcell with hcell
    subst hcell
    have holdW : old.type = CellType.Wall := by rw [← k1]; exact htype
    rcases kw holdW with ⟨hi, ho⟩ | hz
    · rcases h old hold holdW with ⟨hzi, hzo⟩
      rw [hi, ho, hzi, hzo]
      exact ⟨rfl, rfl⟩
    · exact hz

theorem scanFold_wallZeroAt_pres (upw : Bool) (er es : ℚ) (L : List (Nat × Nat))
    {r c : Nat} :
    ∀ acc, WallZeroAt acc r c →
      WallZeroAt (L.foldl (fun acc rc => processCell upw er es acc rc.1 rc.2) acc) r c := by
  induction L with
  | nil => intro acc h; exact h
  | cons rc L ih =>
    intro acc h
    rw [List.foldl_cons]
    exact ih _ (processCell_wallZeroAt_pres upw er es acc rc.1 rc.2 h)

theorem processCell_wallZeroAt_estab (upw : Bool) (er es : ℚ) (acc : Board)
    {r c : Nat} {cur : Cell} (hcur : acc.cellAt? r c = some cur) :
    WallZeroAt (processCell upw er es acc r c) r c := by
  intro cell hcell htype
  rcases (processCell_master upw er es acc r c).2.2.2.2 cur hcur with ⟨new, hnew, ht, hs⟩
  rw [hnew] at hcell
  injection hcell with hcell
  subst hcell
  have : cur.type = CellType.Wall := by rw [← ht]; exact htype
  rcases hs (by rw [this]; simp) with ⟨_, hi, ho⟩
  exact ⟨hi, ho⟩

theorem scanFold_wallzero (upw : Bool) (er es : ℚ) (b : Board) (L : List (Nat × Nat)) :
    ∀ acc, StaticEq b acc →
      ∀ r c, (r, c) ∈ L → (∃ x, b.cellAt? r c = some x) →
        WallZeroAt (L.foldl (fun acc rc => processCell upw er es acc rc.1 rc.2) acc) r c := by
  induction L with
  | nil =>
    intro acc _ r c hmem _
    exact absurd hmem (by simp)
  | cons rc L ih =>
    intro acc hse r c hmem hex
    rw [List.foldl_cons]
    rcases List.mem_cons.mp hmem with heq | hmem2
    · subst heq
      rcases hex with ⟨x, hx⟩
      rcases staticEq_cellAt?_some hse hx with ⟨y, hy, _⟩
      have hest : WallZeroAt (processCell upw er es acc r c) r c :=
        processCell_wallZeroAt_estab upw er es acc hy
      exact scanFold_wallZeroAt_pres upw er es L _ hest
    · exact ih _ (staticEq_trans hse (processCell_staticEq upw er es acc rc.1 rc.2))
        r c hmem2 hex

theorem boardUpdate_wallZero (upw : Bool) (er es : ℚ) (b : Board) (hwf : BoardWf b) :
    WallZero (boardUpdate upw er es b) := by
  intro r c cell hcell htype
  have hse := (boardUpdate_updRel upw er es b).1
  have hr : r < b.height := by
    rcases cellAt?_eq_some_bounds hcell with ⟨h1, _, _⟩
    rw [hse.2.1]
    exact h1
  have hc : c < b.width := by
    rcases cellAt?_eq_some_bounds hcell with ⟨_, h2, _⟩
    rw [hse.1]
    exact h2
  rcases cellAt?_isSome_of_wf hwf hr hc with ⟨x, hx⟩
  exact scanFold_wallzero upw er es b (scanPositions b.height b.width) b (staticEq_refl b)
    r c (mem_scanPositions hr hc) ⟨x, hx⟩ cell hcell htype

/-! ## Characterizations of cycle() and step() -/

theorem step_eq (st? : Option CycleStatics) (s : Sim) :
    step st? s =
      (some { fsc := (st?.getD (initStatics s)).fsc,
              emitter_rate := s.emitter_rate, escape_rate := s.escape_rate,
              use_precalc_weights := s.use_precalc_weights },
       { s with
         board := boardUpdate (st?.getD (initStatics s)).use_precalc_weights
           (st?.getD (initStatics s)).emitter_rate
           (st?.getD (initStatics s)).escape_rate s.board,
         ticks := s.ticks + 1, state := SimState.Stop }) := by
  cases st? <;> rfl

theorem cycle_stop (st? : Option CycleStatics) (s : Sim) (h : s.state = SimState.Stop) :
    cycle st? s = (some (st?.getD (initStatics s)), s) := by
  unfold cycle
  rw [h]

theorem cycle_run_skip (st? : Option CycleStatics) (s : Sim) (h : s.state = SimState.Run)
    (hfsc : (st?.getD (initStatics s)).fsc - 1 ≠ 0) :
    cycle st? s =
      (some { st?.getD (initStatics s) with fsc := (st?.getD (initStatics s)).fsc - 1 },
       s) := by
  unfold cycle
  rw [h]
  simp only [hfsc]
  rw [if_pos hfsc]

theorem cycle_run_fire (st? : Option CycleStatics) (s : Sim) (h : s.state = SimState.Run)
    (hfsc : (st?.getD (initStatics s)).fsc - 1 = 0) :
    cycle st? s =
      (some { fsc := s.tick_rate, emitter_rate := s.emitter_rate,
              escape_rate := s.escape_rate,
              use_precalc_weights := s.use_precalc_weights },
       { s with
         board := boardUpdate (st?.getD (initStatics s)).use_precalc_weights
           (st?.getD (initStatics s)).emitter_rate
           (st?.getD (initStatics s)).escape_rate s.board,
         ticks := s.ticks + 1 }) := by
  unfold cycle
  rw [h]
  simp only []
  rw [if_neg (by simp [hfsc])]
  unfold finishCycle
  rw [h]
  simp [hfsc]

theorem cycle_board_cases (st? : Option CycleStatics) (s : Sim) :
    (cycle st? s).2.board = s.board ∨
    (cycle st? s).2.board =
      boardUpdate (st?.getD (initStatics s)).use_precalc_weights
        (st?.getD (initStatics s)).emitter_rate
        (st?.getD (initStatics s)).escape_rate s.board := by
  cases hst : s.state with
  | Stop => rw [cycle_stop st? s hst]; exact Or.inl rfl
  | Run =>
    by_cases hfsc : (st?.getD (initStatics s)).fsc - 1 = 0
    · rw [cycle_run_fire st? s hst hfsc]
      exact Or.inr rfl
    · rw [cycle_run_skip st? s hst hfsc]
      exact Or.inl rfl
  | Step =>
    have : cycle st? s = finishCycle (st?.getD (initStatics s)) s := by
      unfold cycle
      rw [hst]
    rw [this]
    unfold finishCycle
    exact Or.inr rfl

theorem cycle_updRel (st? : Option CycleStatics) (s : Sim) :
    UpdRel s.board (cycle st? s).2.board := by
  rcases cycle_board_cases st? s with h | h
  · rw [h]; exact updRel_refl s.board
  · rw [h]; exact boardUpdate_updRel _ _ _ s.board

theorem step_updRel (st? : Option CycleStatics) (s : Sim) :
    UpdRel s.board (step st? s).2.board := by
  rw [step_eq]
  exact boardUpdate_updRel _ _ _ s.board

theorem applyOp_updRel (p : Option CycleStatics × Sim) (op : SimOp) :
    UpdRel p.2.board (applyOp p op).2.board := by
  cases op with
  | cyc => exact cycle_updRel p.1 p.2
  | stp => exact step_updRel p.1 p.2
  | start => exact updRel_refl _
  | stop => exact updRel_refl _
  | config tr er es upw => exact updRel_refl _

theorem applyOps_updRel (ops : List SimOp) (p : Option CycleStatics × Sim) :
    UpdRel p.2.board (applyOps ops p).2.board := by
  unfold applyOps
  induction ops generalizing p with
  | nil => exact updRel_refl _
  | cons op ops ih =>
    rw [List.foldl_cons]
    exact updRel_trans (applyOp_updRel p op) (ih (applyOp p op))

/-! ## The weight-precomputation pass -/

theorem nonOmega_eq_fields {c d : Cell} (h : c.nonOmega = d.nonOmega) :
    c.type = d.type ∧ c.cost = d.cost ∧ c.row = d.row ∧ c.col = d.col ∧
    c.density = d.density ∧ c.outtake = d.outtake ∧ c.intake = d.intake := by
  simpa [Cell.nonOmega, Prod.ext_iff] using h

theorem nonOmEq_refl (b : Board) : NonOmEq b b := ⟨rfl, rfl, rfl, rfl, fun _ _ => rfl⟩

theorem nonOmEq_cellAt?_some {b bp : Board} (h : NonOmEq b bp) {r c : Nat} {x : Cell}
    (hx : b.cellAt? r c = some x) :
    ∃ y, bp.cellAt? r c = some y ∧ y.nonOmega = x.nonOmega := by
  have hmap := h.2.2.2.2 r c
  rw [hx] at hmap
  cases hy : bp.cellAt? r c with
  | none => rw [hy] at hmap; simp at hmap
  | some y =>
    rw [hy] at hmap
    simp at hmap
    exact ⟨y, rfl, hmap.symm⟩

theorem nonOmEq_cellAt?_none {b bp : Board} (h : NonOmEq b bp) {r c : Nat}
    (hx : b.cellAt? r c = none) : bp.cellAt? r c = none := by
  have hmap := h.2.2.2.2 r c
  rw [hx] at hmap
  cases hy : bp.cellAt? r c with
  | none => rfl
  | some y => rw [hy] at hmap; simp at hmap

theorem counts_congr {b bp : Board}
    (htype : ∀ r c, (b.cellAt? r c).map Cell.type = (bp.cellAt? r c).map Cell.type)
    (r c : Nat) : neighborCounts b r c = neighborCounts bp r c := by
  rw [neighborCounts_eq, neighborCounts_eq]
  have hin : ∀ dir, inInd b r c dir = inInd bp r c dir := by
    intro dir
    unfold inInd Board.cellAtD?
    cases hpos : dirPos? dir r c with
    | none => rfl
    | some rc =>
      simp only []
      have := htype rc.1 rc.2
      cases hx : b.cellAt? rc.1 rc.2 with
      | none =>
        rw [hx] at this
        cases hy : bp.cellAt? rc.1 rc.2 with
        | none => rfl
        | some y => rw [hy] at this; simp at this
      | some x =>
        rw [hx] at this
        cases hy : bp.cellAt? rc.1 rc.2 with
        | none => rw [hy] at this; simp at this
        | some y =>
          rw [hy] at this
          simp at this
          simp only []
          rw [this]
  have hout : ∀ dir, outInd b r c dir = outInd bp r c dir := by
    intro dir
    unfold outInd Board.cellAtD?
    cases hpos : dirPos? dir r c with
    | none => rfl
    | some rc =>
      simp only []
      have := htype rc.1 rc.2
      cases hx : b.cellAt? rc.1 rc.2 with
      | none =>
        rw [hx] at this
        cases hy : bp.cellAt? rc.1 rc.2 with
        | none => rfl
        | some y => rw [hy] at this; simp at this
      | some x =>
        rw [hx] at this
        cases hy : bp.cellAt? rc.1 rc.2 with
        | none => rw [hy] at this; simp at this
        | some y =>
          rw [hy] at this
          simp at this
          simp only []
          rw [this]
  simp [directions, hin, hout]

theorem nonOmEq_types {b bp : Board} (h : NonOmEq b bp) :
    ∀ r c, (b.cellAt? r c).map Cell.type = (bp.cellAt? r c).map Cell.type := by
  intro r c
  have hmap := h.2.2.2.2 r c
  cases hx : b.cellAt? r c with
  | none => rw [nonOmEq_cellAt?_none h hx]
  | some x =>
    rcases nonOmEq_cellAt?_some h hx with ⟨y, hy, hny⟩
    rw [hy]
    simp [(nonOmega_eq_fields hny).1]

theorem weighCell_nonOmEq {b acc : Board} (h : NonOmEq b acc) (q : Nat × Nat) :
    NonOmEq b (weighCell acc q) := by
  unfold weighCell
  cases hcur : acc.cellAt? q.1 q.2 with
  | none => exact h
  | some cur =>
    simp only []
    refine ⟨h.1.trans rfl, h.2.1.trans rfl, h.2.2.1.trans (setCell_length acc q.1 q.2 _).symm,
      h.2.2.2.1.trans (setCell_pixmap acc q.1 q.2 _).symm, ?_⟩
    intro r c
    by_cases heq : r = q.1 ∧ c = q.2
    · rcases heq with ⟨h1, h2⟩
      subst h1; subst h2
      rw [cellAt?_setCell_self hcur]
      have hq := h.2.2.2.2 q.1 q.2
      rw [hcur] at hq
      rw [hq]
      simp [Cell.nonOmega]
    · rw [cellAt?_setCell_other hcur _ heq]
      exact h.2.2.2.2 r c

theorem weighCell_omegaAt_pres {b acc : Board} (h : NonOmEq b acc) (q : Nat × Nat)
    {r c : Nat} (ho : OmegaAt b acc r c) : OmegaAt b (weighCell acc q) r c := by
  intro cell hcell
  unfold weighCell at hcell
  cases hcur : acc.cellAt? q.1 q.2 with
  | none =>
    rw [hcur] at hcell
    exact ho cell hcell
  | some cur =>
    rw [hcur] at hcell
    simp only [] at hcell
    by_cases heq : r = q.1 ∧ c = q.2
    · rcases heq with ⟨h1, h2⟩
      subst h1; subst h2
      rw [cellAt?_setCell_self hcur] at hcell
      injection hcell with hcell
      subst hcell
      have hcg : neighborCounts acc q.1 q.2 = neighborCounts b q.1 q.2 :=
        (counts_congr (nonOmEq_types h) q.1 q.2).symm
      simp only []
      rw [hcg]
      exact ⟨rfl, rfl⟩
    · rw [cellAt?_setCell_other hcur _ heq] at hcell
      exact ho cell hcell

theorem weighCell_omegaAt_estab {b acc : Board} (h : NonOmEq b acc) (r c : Nat) :
    OmegaAt b (weighCell acc (r, c)) r c := by
  intro cell hcell
  unfold weighCell at hcell
  simp only [] at hcell
  cases hcur : acc.cellAt? r c with
  | none =>
    rw [hcur] at hcell
    simp only [] at hcell
    rw [hcur] at hcell
    exact absurd hcell (by simp)
  | some cur =>
    rw [hcur] at hcell
    simp only [] at hcell
    rw [cellAt?_setCell_self hcur] at hcell
    injection hcell with hcell
    subst hcell
    have hcg : neighborCounts acc r c = neighborCounts b r c :=
      (counts_congr (nonOmEq_types h) r c).symm
    simp only []
    rw [hcg]
    exact ⟨rfl, rfl⟩

theorem scanFold_weigh_nonOmEq (L : List (Nat × Nat)) (b : Board) :
    ∀ acc, NonOmEq b acc → NonOmEq b (L.foldl weighCell acc) := by
  induction L with
  | nil => intro acc h; exact h
  | cons q L ih =>
    intro acc h
    rw [List.foldl_cons]
    exact ih _ (weighCell_nonOmEq h q)

theorem scanFold_weigh_omegaAt_pres (L : List (Nat × Nat)) (b : Board) {r c : Nat} :
    ∀ acc, NonOmEq b acc → OmegaAt b acc r c → OmegaAt b (L.foldl weighCell acc) r c := by
  induction L with
  | nil => intro acc _ ho; exact ho
  | cons q L ih =>
    intro acc h ho
    rw [List.foldl_cons]
    exact ih _ (weighCell_nonOmEq h q) (weighCell_omegaAt_pres h q ho)

theorem scanFold_weigh_omegaAt (L : List (Nat × Nat)) (b : Board) :
    ∀ acc, NonOmEq b acc →
      ∀ r c, (r, c) ∈ L → OmegaAt b (L.foldl weighCell acc) r c := by
  induction L with
  | nil =>
    intro acc _ r c hmem
    exact absurd hmem (by simp)
  | cons q L ih =>
    intro acc h r c hmem
    rw [List.foldl_cons]
    rcases List.mem_cons.mp hmem with heq | hmem2
    · subst heq
      exact scanFold_weigh_omegaAt_pres L b _ (weighCell_nonOmEq h (r, c))
        (weighCell_omegaAt_estab h r c)
    · exact ih _ (weighCell_nonOmEq h q) r c hmem2

theorem computeWeights_nonOmEq (b : Board) : NonOmEq b (computeWeights b) :=
  scanFold_weigh_nonOmEq _ b b (nonOmEq_refl b)

theorem computeWeights_weightsOk (b : Board) :
    WeightsOk (computeWeights b) := by
  intro r c cell hcell
  have hno := computeWeights_nonOmEq b
  have hr : r < b.height := by
    rcases cellAt?_eq_some_bounds hcell with ⟨h1, _, _⟩
    rw [hno.2.1]
    exact h1
  have hc : c < b.width := by
    rcases cellAt?_eq_some_bounds hcell with ⟨_, h2, _⟩
    rw [hno.1]
    exact h2
  have hom := scanFold_weigh_omegaAt (scanPositions b.height b.width) b b (nonOmEq_refl b)
    r c (mem_scanPositions hr hc) cell hcell
  have hcg : neighborCounts b r c = neighborCounts (computeWeights b) r c :=
    counts_congr (nonOmEq_types hno) r c
  rw [← hcg]
  exact hom

/-! ## Construction: board classification and engine construction -/

theorem rowmajor_div {r c w : Nat} (hc : c < w) : (r * w + c) / w = r := by
  have hw : 0 < w := Nat.lt_of_le_of_lt (Nat.zero_le _) hc
  rw [Nat.add_comm, Nat.add_mul_div_right c r hw, Nat.div_eq_of_lt hc, Nat.zero_add]

theorem rowmajor_mod {r c w : Nat} (hc : c < w) : (r * w + c) % w = c := by
  rw [Nat.add_comm, Nat.add_mul_mod_self_right, Nat.mod_eq_of_lt hc]

theorem mkBoard_width (w h : Nat) (l : List Int) : (mkBoard w h l).width = w := rfl

theorem mkBoard_height (w h : Nat) (l : List Int) : (mkBoard w h l).height = h := rfl

theorem mkBoard_length (w h : Nat) (l : List Int) :
    (mkBoard w h l).cells.length = h * w := by
  simp [mkBoard]

theorem mkBoard_wf (w h : Nat) (l : List Int) : BoardWf (mkBoard w h l) := by
  unfold BoardWf
  rw [mkBoard_length, mkBoard_width, mkBoard_height]

theorem mkBoard_cellAt {w h : Nat} {l : List Int} {r c : Nat} (hr : r < h) (hc : c < w) :
    (mkBoard w h l).cellAt? r c =
      some (classifyCell r c (l.getD (r * w + c) 0)) := by
  unfold Board.cellAt?
  rw [if_pos ⟨by rw [mkBoard_height]; exact hr, by rw [mkBoard_width]; exact hc⟩]
  show ((List.range (h * w)).map fun idx =>
    classifyCell (idx / w) (idx % w) (l.getD idx 0)).get? (r * (mkBoard w h l).width + c) = _
  rw [mkBoard_width, List.get?_map, List.get?_range (row_major_lt hr hc)]
  simp [rowmajor_div hc, rowmajor_mod hc]

theorem mkBoard_cellAt_none {w h : Nat} {l : List Int} {r c : Nat}
    (hout : h ≤ r ∨ w ≤ c) : (mkBoard w h l).cellAt? r c = none := by
  unfold Board.cellAt?
  rw [if_neg]
  rw [mkBoard_height, mkBoard_width]
  omega

theorem classifyCell_type_cost (r c : Nat) (code : Int) :
    ((classifyCell r c code).type = CellType.Floor ↔
      0 ≤ (classifyCell r c code).cost ∧ (classifyCell r c code).cost ≤ 9) ∧
    (classifyCell r c code).density = 0 ∧
    (classifyCell r c code).row = r ∧ (classifyCell r c code).col = c := by
  unfold classifyCell
  simp only []
  split_ifs with h1 h2 <;> simp <;> omega

theorem mkSim_oob_iff (w h : Nat) (l : List Int) (er ec : Nat) :
    mkSim w h l er ec = Except.error SimError.outOfBounds ↔ h ≤ er ∨ w ≤ ec := by
  constructor
  · intro hmk
    by_contra hcon
    push_neg at hcon
    have hsome := mkBoard_cellAt (l := l) hcon.1 hcon.2
    unfold mkSim at hmk
    simp only [] at hmk
    rw [hsome] at hmk
    simp only [] at hmk
    split at hmk
    · exact SimError.noConfusion (Except.error.inj hmk)
    · exact Except.noConfusion hmk
  · intro hout
    unfold mkSim
    simp only []
    rw [mkBoard_cellAt_none hout]

theorem mkSim_invalid_iff (w h : Nat) (l : List Int) (er ec : Nat) :
    mkSim w h l er ec = Except.error SimError.invalidEmitterPlacement ↔
      (er < h ∧ ec < w ∧ ∃ cell, (mkBoard w h l).cellAt? er ec = some cell ∧
        (cell.cost < 0 ∨ 9 < cell.cost)) := by
  constructor
  · intro hmk
    unfold mkSim at hmk
    simp only [] at hmk
    cases hcell : (mkBoard w h l).cellAt? er ec with
    | none =>
      rw [hcell] at hmk
      exact SimError.noConfusion (Except.error.inj hmk)
    | some em =>
      rcases cellAt?_eq_some_bounds hcell with ⟨h1, h2, _⟩
      rw [mkBoard_height] at h1
      rw [mkBoard_width] at h2
      rw [hcell] at hmk
      simp only [] at hmk
      split at hmk
      · rename_i hcost
        exact ⟨h1, h2, em, rfl, hcost⟩
      · exact Except.noConfusion hmk
  · intro ⟨h1, h2, cell, hcell, hcost⟩
    unfold mkSim
    simp only []
    rw [hcell]
    simp only []
    rw [if_pos hcost]

theorem mkSim_ok_char {w h : Nat} {l : List Int} {er ec : Nat} {s : Sim}
    (hok : mkSim w h l er ec = Except.ok s) :
    ∃ em, (mkBoard w h l).cellAt? er ec = some em ∧
      0 ≤ em.cost ∧ em.cost ≤ 9 ∧
      s.state = SimState.Stop ∧ s.ticks = 0 ∧ s.tick_rate = 1 ∧
      s.emitter_rate = 1 ∧ s.escape_rate = 1 ∧ s.use_precalc_weights = false ∧
      s.board = computeWeights
        (((mkBoard w h l).setCell er ec
          { em with type := CellType.Emitter, density := 1 }).writePixel er ec
          emitter_color) := by
  unfold mkSim at hok
  simp only [] at hok
  cases hcell : (mkBoard w h l).cellAt? er ec with
  | none =>
    rw [hcell] at hok
    exact Except.noConfusion hok
  | some em =>
    rw [hcell] at hok
    simp only [] at hok
    split at hok
    · exact Except.noConfusion hok
    · rename_i hcost
      push_neg at hcost
      refine ⟨em, rfl, hcost.1, hcost.2, ?_⟩
      have hs := Except.ok.inj hok
      rw [← hs]
      exact ⟨rfl, rfl, rfl, rfl, rfl, rfl, rfl⟩

theorem cellAt?_writePixel (b : Board) (row col rgba rowp colp : Nat) :
    (b.writePixel row col rgba).cellAt? rowp colp = b.cellAt? rowp colp := rfl

theorem writePixel_width (b : Board) (row col rgba : Nat) :
    (b.writePixel row col rgba).width = b.width := rfl

theorem writePixel_height (b : Board) (row col rgba : Nat) :
    (b.writePixel row col rgba).height = b.height := rfl

theorem writePixel_length (b : Board) (row col rgba : Nat) :
    (b.writePixel row col rgba).cells.length = b.cells.length := rfl

theorem classifyCell_not_emitter (r c : Nat) (code : Int) :
    (classifyCell r c code).type ≠ CellType.Emitter := by
  unfold classifyCell
  simp only []
  split_ifs <;> simp

theorem mkSim_board_dims {w h : Nat} {l : List Int} {er ec : Nat} {s : Sim}
    (hok : mkSim w h l er ec = Except.ok s) :
    s.board.width = w ∧ s.board.height = h ∧ BoardWf s.board := by
  rcases mkSim_ok_char hok with ⟨em, hem, _, _, _, _, _, _, _, _, hboard⟩
  have hno := computeWeights_nonOmEq
    (((mkBoard w h l).setCell er ec
      { em with type := CellType.Emitter, density := 1 }).writePixel er ec emitter_color)
  rw [hboard]
  refine ⟨?_, ?_, ?_⟩
  · rw [← hno.1, writePixel_width, setCell_width, mkBoard_width]
  · rw [← hno.2.1, writePixel_height, setCell_height, mkBoard_height]
  · unfold BoardWf
    rw [← hno.2.2.1, ← hno.1, ← hno.2.1, writePixel_length, setCell_length,
      writePixel_width, setCell_width, writePixel_height, setCell_height]
    exact mkBoard_wf w h l

theorem mkSim_weightsOk {w h : Nat} {l : List Int} {er ec : Nat} {s : Sim}
    (hok : mkSim w h l er ec = Except.ok s) : WeightsOk s.board := by
  rcases mkSim_ok_char hok with ⟨em, hem, _, _, _, _, _, _, _, _, hboard⟩
  rw [hboard]
  exact computeWeights_weightsOk _

theorem mkSim_emitter_cell {w h : Nat} {l : List Int} {er ec : Nat} {s : Sim}
    (hok : mkSim w h l er ec = Except.ok s) :
    ∃ cell, s.board.cellAt? er ec = some cell ∧ cell.type = CellType.Emitter ∧
      cell.density = 1 := by
  rcases mkSim_ok_char hok with ⟨em, hem, _, _, _, _, _, _, _, _, hboard⟩
  have hplaced : (((mkBoard w h l).setCell er ec
      { em with type := CellType.Emitter, density := 1 }).writePixel er ec
      emitter_color).cellAt? er ec =
      some { em with type := CellType.Emitter, density := 1 } := by
    rw [cellAt?_writePixel]
    exact cellAt?_setCell_self hem _
  have hno := computeWeights_nonOmEq
    (((mkBoard w h l).setCell er ec
      { em with type := CellType.Emitter, density := 1 }).writePixel er ec emitter_color)
  rcases nonOmEq_cellAt?_some hno hplaced with ⟨y, hy, hny⟩
  rcases nonOmega_eq_fields hny with ⟨ht, _, _, _, hd, _, _⟩
  refine ⟨y, ?_, ht, hd⟩
  rw [hboard]
  exact hy

theorem mkBoard_cell_eq {w h : Nat} {l : List Int} {r c : Nat} {cell : Cell}
    (hcell : (mkBoard w h l).cellAt? r c = some cell) :
    cell = classifyCell r c (l.getD (r * w + c) 0) := by
  rcases cellAt?_eq_some_bounds hcell with ⟨h1, h2, _⟩
  rw [mkBoard_height] at h1
  rw [mkBoard_width] at h2
  rw [mkBoard_cellAt h1 h2] at hcell
  exact (Option.some.inj hcell).symm

theorem classifyCell_density (r c : Nat) (code : Int) :
    (classifyCell r c code).density = 0 := by
  unfold classifyCell
  simp only []
  split_ifs <;> rfl

theorem mkSim_densState {w h : Nat} {l : List Int} {er ec : Nat} {s : Sim}
    (hok : mkSim w h l er ec = Except.ok s) : DensState s.board := by
  rcases mkSim_ok_char hok with ⟨em, hem, _, _, _, _, _, _, _, _, hboard⟩
  intro r c cell hcell
  rw [hboard] at hcell
  have hno := computeWeights_nonOmEq
    (((mkBoard w h l).setCell er ec
      { em with type := CellType.Emitter, density := 1 }).writePixel er ec emitter_color)
  have hmap := hno.2.2.2.2 r c
  rw [hcell] at hmap
  cases hpl : (((mkBoard w h l).setCell er ec
      { em with type := CellType.Emitter, density := 1 }).writePixel er ec
      emitter_color).cellAt? r c with
  | none => rw [hpl] at hmap; simp at hmap
  | some pl =>
    rw [hpl] at hmap
    simp at hmap
    rcases nonOmega_eq_fields hmap with ⟨ht, _, _, _, hd, _, _⟩
    rw [cellAt?_writePixel] at hpl
    by_cases heq : r = er ∧ c = ec
    · rcases heq with ⟨h1, h2⟩
      subst h1; subst h2
      rw [cellAt?_setCell_self hem] at hpl
      injection hpl with hpl
      subst hpl
      simp only [] at ht hd
      refine ⟨fun hf => ?_, fun _ => hd.symm, fun hwl => ?_, fun hesc => ?_⟩
      · rw [← ht] at hf
        exact absurd hf (by simp)
      · rw [← ht] at hwl
        exact absurd hwl (by simp)
      · rw [← ht] at hesc
        exact absurd hesc (by simp)
    · rw [cellAt?_setCell_other hem _ heq] at hpl
      have hcl := mkBoard_cell_eq hpl
      have hd0 : pl.density = 0 := by rw [hcl]; exact classifyCell_density _ _ _
      rw [hd] at hd0
      rw [hd0]
      refine ⟨fun _ => ⟨le_refl 0, by norm_num⟩, fun hemit => ?_, fun _ => rfl, fun _ => rfl⟩
      rw [← ht] at hemit
      rw [hcl] at hemit
      exact absurd hemit (classifyCell_not_emitter _ _ _)

/-! ## Repeated cycle() calls and the frame-skip countdown -/

theorem cycles_zero (p : Option CycleStatics × Sim) : cycles 0 p = p := rfl

theorem cycles_succ (k : Nat) (p : Option CycleStatics × Sim) :
    cycles (k + 1) p = cycles k (cycle p.1 p.2) := by
  unfold cycles
  rw [Function.iterate_succ_apply]

theorem cycles_add (a b : Nat) (p : Option CycleStatics × Sim) :
    cycles (a + b) p = cycles b (cycles a p) := by
  unfold cycles
  rw [Nat.add_comm, Function.iterate_add_apply]

theorem cycle_none (s : Sim) : cycle none s = cycle (some (initStatics s)) s := rfl

theorem cycles_run_skip_many (s : Sim) (hrun : s.state = SimState.Run) :
    ∀ (i : Nat) (st : CycleStatics), (i : Int) < st.fsc →
      cycles i (some st, s) = (some { st with fsc := st.fsc - (i : Int) }, s) := by
  intro i
  induction i with
  | zero =>
    intro st h
    rw [cycles_zero]
    simp
  | succ i ih =>
    intro st h
    rw [cycles_succ]
    simp only []
    have hfsc : (Option.getD (some st) (initStatics s)).fsc - 1 ≠ 0 := by
      simp only [Option.getD_some]
      push_cast at h
      omega
    rw [cycle_run_skip (some st) s hrun hfsc]
    simp only [Option.getD_some]
    rw [ih { st with fsc := st.fsc - 1 } (by simp only []; push_cast at h ⊢; omega)]
    have harith : st.fsc - 1 - (i : Int) = st.fsc - ((i + 1 : Nat) : Int) := by
      push_cast
      ring
    rw [harith]

theorem cycles_fire (s : Sim) (hrun : s.state = SimState.Run) (N : Nat)
    (htr : s.tick_rate = (N : Int)) (hF : 1 ≤ N) :
    cycles N
      (some { fsc := (N : Int), emitter_rate := s.emitter_rate,
              escape_rate := s.escape_rate,
              use_precalc_weights := s.use_precalc_weights }, s) =
      (some { fsc := (N : Int), emitter_rate := s.emitter_rate,
              escape_rate := s.escape_rate,
              use_precalc_weights := s.use_precalc_weights },
       { s with
         ticks := s.ticks + 1,
         board := (boardUpdate s.use_precalc_weights s.emitter_rate
           s.escape_rate s.board) }) := by
  obtain ⟨G, hG⟩ : ∃ G, N = G + 1 := ⟨N - 1, by omega⟩
  subst hG
  rw [cycles_add G 1]
  rw [cycles_run_skip_many s hrun G _ (by simp only []; push_cast; omega)]
  rw [cycles_succ, cycles_zero]
  simp only []
  have hfsc : (Option.getD (some
      { fsc := ((G + 1 : Nat) : Int) - (G : Int),
        emitter_rate := s.emitter_rate, escape_rate := s.escape_rate,
        use_precalc_weights := s.use_precalc_weights }) (initStatics s)).fsc - 1 = 0 := by
    simp only [Option.getD_some]
    push_cast
    ring
  rw [cycle_run_fire (some
      { fsc := ((G + 1 : Nat) : Int) - (G : Int),
        emitter_rate := s.emitter_rate, escape_rate := s.escape_rate,
        use_precalc_weights := s.use_precalc_weights }) s hrun hfsc]
  simp only [Option.getD_some]
  rw [htr]

theorem cycles_periods (s : Sim) (N : Nat) (hN : 1 ≤ N)
    (hrun : s.state = SimState.Run) (htr : s.tick_rate = (N : Int)) :
    ∀ (j m : Nat), m < N →
      cycles (j * N + m)
        (some { fsc := (N : Int), emitter_rate := s.emitter_rate,
                escape_rate := s.escape_rate,
                use_precalc_weights := s.use_precalc_weights }, s) =
        (some { fsc := (N : Int) - (m : Int), emitter_rate := s.emitter_rate,
                escape_rate := s.escape_rate,
                use_precalc_weights := s.use_precalc_weights },
         { s with
           ticks := s.ticks + j,
           board := ((boardUpdate s.use_precalc_weights s.emitter_rate
             s.escape_rate)^[j] s.board) }) := by
  intro j
  induction j generalizing s with
  | zero =>
    intro m hm
    rw [Nat.zero_mul, Nat.zero_add]
    rw [cycles_run_skip_many s hrun m _ (by simp only []; push_cast; omega)]
    simp
  | succ j ih =>
    intro m hm
    have harith : (j + 1) * N + m = N + (j * N + m) := by ring
    rw [harith, cycles_add]
    rw [cycles_fire s hrun N htr hN]
    have hstep := ih { s with
        ticks := s.ticks + 1,
        board := (boardUpdate s.use_precalc_weights s.emitter_rate
          s.escape_rate s.board) } hrun htr m hm
    simp only [] at hstep
    rw [hstep]
    simp only [CycleStatics.mk.injEq, Option.some.injEq, Prod.mk.injEq, Sim.mk.injEq,
      true_and, and_true, and_self]
    constructor
    · omega
    · rw [← Function.iterate_succ_apply]

/-! ## Final helper lemmas -/

theorem densState_densIn01 {b : Board} (h : DensState b) : DensIn01 b := by
  intro r c cell hcell
  rcases h r c cell hcell with ⟨hf, he, hw, hesc⟩
  cases htype : cell.type with
  | Floor => exact hf htype
  | Emitter => rw [he htype]; norm_num
  | Wall => rw [hw htype]; norm_num
  | Escape => rw [hesc htype]; norm_num

theorem densIn01_floorDens01 {b : Board} (h : DensIn01 b) : FloorDens01 b :=
  fun r c cell hcell _ => h r c cell hcell

theorem cycles_none (s : Sim) (k : Nat) (hk : 1 ≤ k) :
    cycles k (none, s) = cycles k (some (initStatics s), s) := by
  obtain ⟨k0, rfl⟩ : ∃ k0, k = k0 + 1 := ⟨k - 1, by omega⟩
  rw [cycles_succ, cycles_succ]
  rfl

/-! ## The ten claims

Concrete evaluations on the acceptance scenario need the rational-arithmetic
kernel reductions that Batteries hides behind irreducibility. -/

section

attribute [local semireducible] Rat.mul Rat.inv Rat.add Rat.sub

set_option maxHeartbeats 4000000 in
theorem tickB_period : tickB^[3] accSim.board = tickB^[1] accSim.board := by decide

theorem tickB_period_all (n : Nat) :
    tickB^[n + 3] accSim.board = tickB^[n + 1] accSim.board := by
  rw [Function.iterate_add_apply tickB n 3, tickB_period,
    ← Function.iterate_add_apply tickB n 1]

set_option maxHeartbeats 4000000 in
theorem accRun_char : ∀ k, accRun (k + 1) =
    (some { fsc := 1, emitter_rate := 1, escape_rate := 1,
            use_precalc_weights := true },
     { accSim with board := tickB^[k + 1] accSim.board, ticks := k + 1 }) := by
  intro k
  induction k with
  | zero => decide
  | succ n ih =>
    have hstep : accRun (n + 1 + 1) = step (accRun (n + 1)).1 (accRun (n + 1)).2 := by
      unfold accRun
      rw [Function.iterate_succ_apply']
    have hb : tickB^[n + 1 + 1] accSim.board = tickB (tickB^[n + 1] accSim.board) :=
      Function.iterate_succ_apply' tickB (n + 1) accSim.board
    rw [hstep, ih, step_eq, hb]
    rfl

set_option maxHeartbeats 4000000 in
theorem accBoard_parity (k : Nat) :
    ((cellAtD (tickB^[k + 1] accSim.board) 0 1).density =
      if (k + 1) % 2 = 1 then (1 : ℚ) else 0) ∧
    ((cellAtD (tickB^[k + 2] accSim.board) 0 1).density =
      if (k + 2) % 2 = 1 then (1 : ℚ) else 0) := by
  induction k with
  | zero =>
    constructor
    · decide
    · decide
  | succ n ih =>
    refine ⟨ih.2, ?_⟩
    rw [show n + 1 + 2 = n + 3 from rfl, tickB_period_all n,
      show (n + 3) % 2 = (n + 1) % 2 by omega]
    exact ih.1


/-- C1: for every grid with the constructor-computed weights, with the active
emitter and escape rates in `[0, 1]`, in either weight mode, from any engine
state whose Floor densities lie in `[0, 1]` (non-Floor densities at their
engine-fixed values), one full board update — through `cycle()` or `step()` —
leaves every Floor cell's density in `[0, 1]`. -/
theorem C1_floor_density_invariant (st? : Option CycleStatics) (s : Sim)
    (hW : WeightsOk s.board) (hD : DensState s.board)
    (hs1 : 0 ≤ s.emitter_rate) (hs2 : s.emitter_rate ≤ 1)
    (hs3 : 0 ≤ s.escape_rate) (hs4 : s.escape_rate ≤ 1)
    (hst : ∀ st, st? = some st → 0 ≤ st.emitter_rate ∧ st.emitter_rate ≤ 1 ∧
      0 ≤ st.escape_rate ∧ st.escape_rate ≤ 1) :
    FloorDens01 ((cycle st? s).2.board) ∧ FloorDens01 ((step st? s).2.board) := by
  have hd01 : DensIn01 s.board := densState_densIn01 hD
  have hrates : 0 ≤ (st?.getD (initStatics s)).emitter_rate ∧
      (st?.getD (initStatics s)).emitter_rate ≤ 1 ∧
      0 ≤ (st?.getD (initStatics s)).escape_rate ∧
      (st?.getD (initStatics s)).escape_rate ≤ 1 := by
    cases st? with
    | none => exact ⟨hs1, hs2, hs3, hs4⟩
    | some st => exact hst st rfl
  constructor
  · rcases cycle_board_cases st? s with h | h
    · rw [h]
      exact densIn01_floorDens01 hd01
    · rw [h]
      exact densIn01_floorDens01 (boardUpdate_dens01 _ _ _ _ (fun _ => hW) hd01
        hrates.1 hrates.2.1 hrates.2.2.1 hrates.2.2.2)
  · rw [step_eq]
    exact densIn01_floorDens01 (boardUpdate_dens01 _ _ _ _ (fun _ => hW) hd01
      hrates.1 hrates.2.1 hrates.2.2.1 hrates.2.2.2)

set_option maxHeartbeats 4000000 in
theorem C1_floor_density_invariant_witness :
    0 ≤ (cellAtD (step none accSim).2.board 0 1).density ∧
    (cellAtD (step none accSim).2.board 0 1).density ≤ 1 := by
  have hok : mkSim 3 1 [48, 48, 58] 0 0 = Except.ok scenarioSim := rfl
  have hb : accSim.board = scenarioSim.board := rfl
  have hW : WeightsOk accSim.board := by
    rw [hb]
    exact mkSim_weightsOk hok
  have hD : DensState accSim.board := by
    rw [hb]
    exact mkSim_densState hok
  have h := (C1_floor_density_invariant none accSim hW hD
    (by decide) (by decide) (by decide) (by decide)
    (fun st hst => Option.noConfusion hst)).2
  exact h 0 1 _ (by decide) (by decide)

/-- C2: in the 1x3 acceptance scenario — Floor(cost 0), Floor(cost 0), Escape,
emitter placed at column 0, both rates 1, precalculated weights — the middle
cell's density after `k ≥ 1` ticks is exactly 1 for odd `k` and exactly 0 for
even `k`: it oscillates with period 2 indefinitely. -/
theorem C2_acceptance_oscillation (k : Nat) (hk : 1 ≤ k) :
    accDens k = if k % 2 = 1 then (1 : ℚ) else 0 := by
  obtain ⟨n, rfl⟩ : ∃ n, k = n + 1 := ⟨k - 1, by omega⟩
  unfold accDens
  rw [accRun_char n]
  exact (accBoard_parity n).1

theorem C2_acceptance_oscillation_witness :
    1 ≤ 3 ∧ accDens 3 = if 3 % 2 = 1 then (1 : ℚ) else 0 :=
  ⟨by norm_num, C2_acceptance_oscillation 3 (by norm_num)⟩

/-- C9: refutation of the claimed weight table for the 1x3 acceptance
scenario.  The claim states cell0 (the Emitter) gets `omega_in = 0`; the
constructor counts the Floor neighbor cell1 as an inflow source for cell0, so
the computed table differs from the claimed one. -/
theorem C9_claimed_weights_false :
    ¬ ((cellAtD scenarioSim.board 0 0).omega_in = 0 ∧
       (cellAtD scenarioSim.board 0 0).omega_out = 1 ∧
       (cellAtD scenarioSim.board 0 1).omega_in = 1 ∧
       (cellAtD scenarioSim.board 0 1).omega_out = 1 ∧
       (cellAtD scenarioSim.board 0 2).omega_in = 1 ∧
       (cellAtD scenarioSim.board 0 2).omega_out = 1) := by decide

/-- C9 (corrected): the weights the constructor actually precomputes for the
1x3 acceptance scenario: cell0 (Emitter) `omega_in = 1` and `omega_out = 1`
(its Floor neighbor counts as one inflow source and one outflow sink), cell1
(Floor) `omega_in = omega_out = 1`, cell2 (Escape) `omega_in = omega_out = 1`.
Only cell0's `omega_in` differs from the claimed table. -/
theorem C9_actual_weights :
    (cellAtD scenarioSim.board 0 0).omega_in = 1 ∧
    (cellAtD scenarioSim.board 0 0).omega_out = 1 ∧
    (cellAtD scenarioSim.board 0 1).omega_in = 1 ∧
    (cellAtD scenarioSim.board 0 1).omega_out = 1 ∧
    (cellAtD scenarioSim.board 0 2).omega_in = 1 ∧
    (cellAtD scenarioSim.board 0 2).omega_out = 1 := by decide

set_option maxHeartbeats 4000000 in
/-- C10: the `cycle()` statics are program-lifetime, not per-engine.  Engine
`simB` is configured with `emitter_rate = 0`, yet when its first update runs
after another engine (`accSim`) has completed an update — so the statics hold
that engine's latched rates `(1, 1, true)` — the middle cell fills to density
1, exactly as under emitter rate 1.  Had the statics been initialized from
`simB`'s own configuration (the `none` start), the same first update would
leave the middle cell at density 0. -/
theorem C10_statics_cross_engine :
    simB.emitter_rate = 0 ∧
    (step none accSim).1 =
      some { fsc := 1, emitter_rate := 1, escape_rate := 1,
             use_precalc_weights := true } ∧
    (cellAtD (step (step none accSim).1 simB).2.board 0 1).density = 1 ∧
    (cellAtD (step none simB).2.board 0 1).density = 0 := by
  refine ⟨by decide, by decide, by decide, by decide⟩

theorem writePixel_pixmap (b : Board) (row col rgba : Nat) :
    (b.writePixel row col rgba).pixmap = b.pixmap.set (row * b.width + col) rgba := rfl

/-- C3: non-Floor densities never change: across any sequence of host
interactions (cycles, steps, start/stop, configuration writes), every cell
whose kind is not Floor keeps its density and its kind; after any full board
update every Wall cell's `intake` and `outtake` scratch is 0; on a grid with
no Floor cells a full board update changes no density; and the Emitter cell
of any constructed engine still has kind Emitter and density 1 after any
sequence of interactions. -/
theorem C3_nonfloor_density_constant :
    (∀ (ops : List SimOp) (p : Option CycleStatics × Sim) (r c : Nat) (cell cellp : Cell),
      p.2.board.cellAt? r c = some cell →
      (applyOps ops p).2.board.cellAt? r c = some cellp →
      cell.type ≠ CellType.Floor →
      cellp.density = cell.density ∧ cellp.type = cell.type) ∧
    (∀ (upw : Bool) (er es : ℚ) (b : Board), BoardWf b →
      WallZero (boardUpdate upw er es b)) ∧
    (∀ (upw : Bool) (er es : ℚ) (b : Board),
      (∀ r c cell, b.cellAt? r c = some cell → cell.type ≠ CellType.Floor) →
      ∀ r c, ((boardUpdate upw er es b).cellAt? r c).map Cell.density =
        (b.cellAt? r c).map Cell.density) ∧
    (∀ (w h : Nat) (l : List Int) (er ec : Nat) (s : Sim) (ops : List SimOp)
       (st? : Option CycleStatics) (cellp : Cell),
      mkSim w h l er ec = Except.ok s →
      (applyOps ops (st?, s)).2.board.cellAt? er ec = some cellp →
      cellp.type = CellType.Emitter ∧ cellp.density = 1) := by
  refine ⟨?_, ?_, ?_, ?_⟩
  · intro ops p r c cell cellp hcell hcellp hnf
    have hu := applyOps_updRel ops p
    refine ⟨hu.2 r c cell cellp hcell hcellp hnf, ?_⟩
    rcases staticEq_cellAt?_some hu.1 hcell with ⟨y, hy, hxy⟩
    rw [hcellp] at hy
    cases Option.some.inj hy
    exact (statics_eq_fields hxy).1
  · intro upw er es b hwf
    exact boardUpdate_wallZero upw er es b hwf
  · intro upw er es b hall r c
    have hu := boardUpdate_updRel upw er es b
    cases hcell : b.cellAt? r c with
    | none => rw [staticEq_cellAt?_none hu.1 hcell]
    | some cell =>
      rcases staticEq_cellAt?_some hu.1 hcell with ⟨y, hy, hxy⟩
      rw [hy]
      have hd := hu.2 r c cell y hcell hy (hall r c cell hcell)
      simp [hd]
  · intro w h l er ec s ops st? cellp hok hcellp
    rcases mkSim_emitter_cell hok with ⟨cell, hcell, htype, hdens⟩
    have hu := applyOps_updRel ops (st?, s)
    have hd := hu.2 er ec cell cellp hcell hcellp (by rw [htype]; simp)
    rcases staticEq_cellAt?_some hu.1 hcell with ⟨y, hy, hxy⟩
    rw [hcellp] at hy
    cases Option.some.inj hy
    refine ⟨?_, ?_⟩
    · rw [(statics_eq_fields hxy).1, htype]
    · rw [hd, hdens]

set_option maxHeartbeats 4000000 in
theorem C3_nonfloor_density_constant_witness :
    (cellAtD (applyOps [SimOp.stp] (none, scenarioSim)).2.board 0 0).type =
      CellType.Emitter ∧
    (cellAtD (applyOps [SimOp.stp] (none, scenarioSim)).2.board 0 0).density = 1 :=
  C3_nonfloor_density_constant.2.2.2 3 1 [48, 48, 58] 0 0 scenarioSim [SimOp.stp] none
    (cellAtD (applyOps [SimOp.stp] (none, scenarioSim)).2.board 0 0) rfl (by decide)

/-- C4: on every successfully constructed engine the board satisfies the
constructor's weight law — each cell's `omega_in`/`omega_out` equal
`omegaOf (neighborCounts ...)`, i.e. `1/ins` and `1/outs` (0 on a zero count)
over the four cardinal neighbors, where a Floor neighbor counts into both
`ins` and `outs`, an Emitter neighbor only into `ins`, an Escape neighbor
only into `outs`, and a Wall or out-of-grid neighbor into neither — and these
two weight fields never change across any sequence of host interactions. -/
theorem C4_static_weights (w h : Nat) (l : List Int) (er ec : Nat) (s : Sim)
    (hok : mkSim w h l er ec = Except.ok s) :
    WeightsOk s.board ∧
    ∀ (ops : List SimOp) (st? : Option CycleStatics) (r c : Nat) (cell cellp : Cell),
      s.board.cellAt? r c = some cell →
      (applyOps ops (st?, s)).2.board.cellAt? r c = some cellp →
      cellp.omega_in = cell.omega_in ∧ cellp.omega_out = cell.omega_out := by
  refine ⟨mkSim_weightsOk hok, ?_⟩
  intro ops st? r c cell cellp hcell hcellp
  have hu := applyOps_updRel ops (st?, s)
  rcases staticEq_cellAt?_some hu.1 hcell with ⟨y, hy, hxy⟩
  rw [hcellp] at hy
  cases Option.some.inj hy
  rcases statics_eq_fields hxy with ⟨_, _, _, _, h5, h6⟩
  exact ⟨h5, h6⟩

set_option maxHeartbeats 4000000 in
theorem C4_static_weights_witness :
    (cellAtD scenarioSim.board 0 1).omega_in =
      (omegaOf (neighborCounts scenarioSim.board 0 1)).1 ∧
    (cellAtD scenarioSim.board 0 1).omega_out =
      (omegaOf (neighborCounts scenarioSim.board 0 1)).2 :=
  (C4_static_weights 3 1 [48, 48, 58] 0 0 scenarioSim rfl).1 0 1
    (cellAtD scenarioSim.board 0 1) (by decide)

/-- C5: from any run-state and any `tick_rate`, `step()` performs exactly one
full board update on the current board (bypassing the frame-skip countdown),
increments `getTicks()` by exactly 1, and leaves the engine Stopped. -/
theorem C5_step_one_update (st? : Option CycleStatics) (s : Sim) :
    (step st? s).2.state = SimState.Stop ∧
    getTicks (step st? s).2 = getTicks s + 1 ∧
    (step st? s).2.board =
      boardUpdate (st?.getD (initStatics s)).use_precalc_weights
        (st?.getD (initStatics s)).emitter_rate
        (st?.getD (initStatics s)).escape_rate s.board := by
  rw [step_eq]
  exact ⟨rfl, rfl, rfl⟩

/-- C6: the frame-skip throttle.  From a fresh program start (`none` statics),
an engine Running with `tick_rate = N` held fixed updates once every `N`
`cycle()` calls: after `j` full periods plus `m < N` further calls (at least
one call in total), `getTicks()` has grown by exactly `j`, the board has
undergone exactly `j` full updates, and the countdown sits at `N - m`,
having been reset to `tick_rate` after each firing. -/
theorem C6_frame_skip (s : Sim) (N : Nat) (hN : 1 ≤ N) (hrun : s.state = SimState.Run)
    (htr : s.tick_rate = (N : Int)) (j m : Nat) (hm : m < N) (hjm : 0 < j + m) :
    getTicks (cycles (j * N + m) (none, s)).2 = getTicks s + j ∧
    (cycles (j * N + m) (none, s)).2.board =
      (boardUpdate s.use_precalc_weights s.emitter_rate s.escape_rate)^[j] s.board ∧
    (cycles (j * N + m) (none, s)).1 =
      some { fsc := (N : Int) - (m : Int), emitter_rate := s.emitter_rate,
             escape_rate := s.escape_rate,
             use_precalc_weights := s.use_precalc_weights } := by
  have hk : 1 ≤ j * N + m := by
    rcases Nat.eq_zero_or_pos j with hj | hj
    · omega
    · have h1 := Nat.mul_le_mul hj hN
      omega
  rw [cycles_none _ _ hk]
  have hinit : initStatics s =
      { fsc := (N : Int), emitter_rate := s.emitter_rate,
        escape_rate := s.escape_rate,
        use_precalc_weights := s.use_precalc_weights } := by
    unfold initStatics
    rw [htr]
  rw [hinit, cycles_periods s N hN hrun htr j m hm]
  exact ⟨rfl, rfl, rfl⟩

theorem C6_frame_skip_witness :
    getTicks (cycles (1 * 2 + 1) (none, c6sim)).2 = getTicks c6sim + 1 ∧
    (cycles (1 * 2 + 1) (none, c6sim)).2.board =
      (boardUpdate c6sim.use_precalc_weights c6sim.emitter_rate
        c6sim.escape_rate)^[1] c6sim.board ∧
    (cycles (1 * 2 + 1) (none, c6sim)).1 =
      some { fsc := ((2 : Nat) : Int) - ((1 : Nat) : Int),
             emitter_rate := c6sim.emitter_rate,
             escape_rate := c6sim.escape_rate,
             use_precalc_weights := c6sim.use_precalc_weights } :=
  C6_frame_skip c6sim 2 (by norm_num) (by decide) (by decide) 1 1
    (by norm_num) (by norm_num)

/-- C7: construction fails with `outOfBounds` exactly when the emitter
coordinate is outside the grid; fails with `invalidEmitterPlacement` exactly
when the in-grid cell there has cost outside `[0, 9]` — which holds exactly
when that cell's kind is not Floor; and on success the placement mutates
exactly the emitter cell (kind to Emitter, density to 1, all other cells
untouched outside the weight fields) and paints exactly its pixel with the
emitter color. -/
theorem C7_construction (w h : Nat) (l : List Int) (er ec : Nat) :
    (mkSim w h l er ec = Except.error SimError.outOfBounds ↔ h ≤ er ∨ w ≤ ec) ∧
    (mkSim w h l er ec = Except.error SimError.invalidEmitterPlacement ↔
      (er < h ∧ ec < w ∧ ∃ cell, (mkBoard w h l).cellAt? er ec = some cell ∧
        (cell.cost < 0 ∨ 9 < cell.cost))) ∧
    (∀ r c cell, (mkBoard w h l).cellAt? r c = some cell →
      ((cell.cost < 0 ∨ 9 < cell.cost) ↔ cell.type ≠ CellType.Floor)) ∧
    (∀ s, mkSim w h l er ec = Except.ok s →
      (∀ em, (mkBoard w h l).cellAt? er ec = some em →
        (s.board.cellAt? er ec).map Cell.nonOmega =
          some (Cell.nonOmega { em with type := CellType.Emitter, density := 1 })) ∧
      (∀ r c, ¬(r = er ∧ c = ec) →
        (s.board.cellAt? r c).map Cell.nonOmega =
          ((mkBoard w h l).cellAt? r c).map Cell.nonOmega) ∧
      s.board.pixmap = (mkBoard w h l).pixmap.set (er * w + ec) emitter_color) := by
  refine ⟨mkSim_oob_iff w h l er ec, mkSim_invalid_iff w h l er ec, ?_, ?_⟩
  · intro r c cell hcell
    have hc := mkBoard_cell_eq hcell
    subst hc
    rcases classifyCell_type_cost r c (l.getD (r * w + c) 0) with ⟨hiff, _, _, _⟩
    simp only [ne_eq, hiff]
    omega
  · intro s hok
    rcases mkSim_ok_char hok with ⟨em, hem, _, _, _, _, _, _, _, _, hboard⟩
    have hno := computeWeights_nonOmEq
      (((mkBoard w h l).setCell er ec
        { em with type := CellType.Emitter, density := 1 }).writePixel er ec
        emitter_color)
    refine ⟨?_, ?_, ?_⟩
    · intro em2 hem2
      rw [hem] at hem2
      cases Option.some.inj hem2
      have hpl : (((mkBoard w h l).setCell er ec
          { em with type := CellType.Emitter, density := 1 }).writePixel er ec
          emitter_color).cellAt? er ec =
          some { em with type := CellType.Emitter, density := 1 } := by
        rw [cellAt?_writePixel]
        exact cellAt?_setCell_self hem _
      have hmap := hno.2.2.2.2 er ec
      rw [hpl] at hmap
      rw [hboard, ← hmap]
      rfl
    · intro r c hne
      have hmap := hno.2.2.2.2 r c
      rw [hboard, ← hmap, cellAt?_writePixel, cellAt?_setCell_other hem _ hne]
    · rw [hboard, ← hno.2.2.2.1, writePixel_pixmap, setCell_pixmap, setCell_width,
        mkBoard_width]

set_option maxHeartbeats 4000000 in
theorem C7_construction_witness :
    mkSim 3 1 [48, 48, 58] 5 0 = Except.error SimError.outOfBounds ∧
    mkSim 3 1 [48, 48, 58] 0 2 = Except.error SimError.invalidEmitterPlacement :=
  ⟨(C7_construction 3 1 [48, 48, 58] 5 0).1.mpr (by norm_num),
   (C7_construction 3 1 [48, 48, 58] 0 2).2.1.mpr
     ⟨by norm_num, by norm_num, cellAtD (mkBoard 3 1 [48, 48, 58]) 0 2,
      by decide, by decide⟩⟩

/-- C8: one-cycle configuration lag.  After any `step()` completes, overwrite
the three configuration fields; the next full board update still runs with
the values the completed update latched (the engine's pre-change values), and
only the update after that runs with the new values. -/
theorem C8_config_lag (st0 : Option CycleStatics) (s0 : Sim) (er es : ℚ) (upw : Bool) :
    (step (step st0 s0).1 (setRates (step st0 s0).2 er es upw)).2.board =
      boardUpdate s0.use_precalc_weights s0.emitter_rate s0.escape_rate
        (setRates (step st0 s0).2 er es upw).board ∧
    (step (step (step st0 s0).1 (setRates (step st0 s0).2 er es upw)).1
          (step (step st0 s0).1 (setRates (step st0 s0).2 er es upw)).2).2.board =
      boardUpdate upw er es
        (step (step st0 s0).1 (setRates (step st0 s0).2 er es upw)).2.board := by
  constructor
  · rw [step_eq st0 s0, step_eq]
    rfl
  · rw [step_eq st0 s0, step_eq, step_eq]
    rfl

end

end Smokey
